import Mathlib

/-!
Verification development for the branch-aware incremental graph
synchronization engine of `source_atlas` (file
`source_atlas/neo4jdb/neo4j_service.py`).

The Python service turns batches of `CodeChunk` facts into Cypher queries
run against a Neo4j property graph.  We shallowly embed the engine: the
persisted graph is an explicit state (`Graph`), each generated Cypher query
template becomes a constructor of `CypherOp`, and `applyOp` gives the query
its Neo4j semantics over that state.  The query semantics follows Cypher:

* a map pattern `{p: v}` matches a node iff the node's property `p` equals
  `v`, and a `null` value in a map pattern matches no node at all;
* `OPTIONAL MATCH` produces one row with `null` when nothing matches, and
  one row per match otherwise (rows of independent matches multiply);
* `MERGE (a)-[:T]->(b)` creates the relationship only when absent, while
  `apoc.create.relationship` / `apoc.create.node` always create;
* within a single query all matches read the state at query start
  (the planner's Eager barrier), and created nodes get fresh ids;
* `DETACH DELETE` removes a node together with its incident relationships.

`NodeMapping` rows (a transient clone scratch table whose rows carry only
`old_id`, `new_id`, `project_id`, `branch`) are modelled as a separate
component of the state.
-/

namespace SourceAtlas

/-- Python truthiness of an optional string (`if s:`): `None` and `""` are falsy. -/
def optTruthy : Option String → Bool
  | none => false
  | some s => !(s == "")

/-- `version or 'unknown'` from the source (empty string is falsy in Python). -/
def orUnknown : Option String → String
  | none => "unknown"
  | some s => if s == "" then "unknown" else s

/-- `_escape_for_cypher`: escape backslash, then double quote, newline, tab,
carriage return, in that order; `None` becomes the empty string. -/
def escapeForCypher : Option String → String
  | none => ""
  | some t =>
    ((((t.replace "\\" "\\\\").replace "\"" "\\\"").replace "\n" "\\n").replace
      "\t" "\\t").replace "\r" "\\r"

/-- `ChunkType` from `models/domain_models.py`. -/
inductive ChunkType
  | REGULAR | GETTER | SETTER | CONSTRUCTOR | STATIC | ENDPOINT | OVERRIDE | CONFIGURATION
deriving DecidableEq, Repr

/-- `MethodCall`: the service only reads `call.name` (`params` is unused there). -/
structure MethodCall where
  name : String
deriving DecidableEq, Repr

/-- `Method` fact.  `endpoint` stands for `str(method.endpoint)` when the
endpoint tuple is non-empty (the service only uses that rendering and the
tuple's truthiness); `handlesAnn` is the `handles_annotation` attribute,
`annots` the `annotations` attribute, and `status` the dynamically attached
`status` attribute read through `getattr(method, 'status', 'ACTIVE')`. -/
structure Method where
  name : String
  full_name : String
  body : String
  ast_hash : String
  method_calls : List MethodCall
  used_types : List String
  field_access : List String
  inheritance_info : List String
  endpoint : Option String
  type : ChunkType
  project_id : String
  branch : String
  handlesAnn : Option String
  annots : List String
  status : Option String
deriving DecidableEq, Repr

/-- `CodeChunk` fact (fields the service reads).  `status` models the
dynamically attached attribute read through `getattr(chunk, 'status', 'ACTIVE')`. -/
structure CodeChunk where
  class_name : String
  full_class_name : String
  file_path : String
  content : String
  ast_hash : String
  implements : List String
  methods : List Method
  project_id : String
  branch : String
  used_types : List String
  type : ChunkType
  handlesAnn : Option String
  annots : List String
  status : Option String
deriving DecidableEq, Repr

/-- A persisted graph node with its property bag; a property that was never
set (`method_name` on class nodes, `pull_request_id`, …) is `none`, which is
how Cypher's `null` behaves in the queries. -/
structure DbNode where
  nid : Nat
  label : String
  name : String
  file_path : String
  class_name : String
  method_name : Option String
  content : String
  ast_hash : String
  project_id : String
  branch : String
  version : String
  status : String
  base_branch : Option String
  base_version : Option String
  pull_request_id : Option String
  endpoint : Option String
deriving DecidableEq, Repr

/-- A persisted directed relationship, identified by endpoint node ids. -/
structure DbEdge where
  src : Nat
  tgt : Nat
  typ : String
deriving DecidableEq, Repr

/-- A `NodeMapping` row: `{old_id, new_id, project_id, branch}`. -/
structure Mapping where
  old_id : Nat
  new_id : Nat
  project_id : String
  branch : String
deriving DecidableEq, Repr

/-- The persisted graph store state. `nextId` is the next internal node id. -/
structure Graph where
  nodes : List DbNode
  edges : List DbEdge
  mappings : List Mapping
  nextId : Nat
deriving DecidableEq, Repr

/-- Business key of a node: `class_name + '.' + method_name` for method-level
nodes, else `class_name` (the `CASE WHEN n.method_name IS NOT NULL …` key
computed by the save / clone queries). -/
def nodeKey (n : DbNode) : String :=
  match n.method_name with
  | some m => n.class_name ++ "." ++ m
  | none => n.class_name

/-- First node with a given internal id, as bound by a Cypher `MATCH` on
`id(n)` (unique under well-formedness). -/
def findNode (g : Graph) (i : Nat) : Option DbNode :=
  g.nodes.find? (fun n => n.nid == i)

end SourceAtlas

namespace SourceAtlas

/-- One row of `node_data` in `generate_cypher_from_chunks` (a class item has
no `method_name` / `endpoint` key, which the Cypher reads as `null`). -/
structure NodeRec where
  name : String
  node_type : String
  file_path : String
  class_name : String
  method_name : Option String
  content : String
  ast_hash : String
  project_id : String
  branch : String
  version : String
  status : String
  base_branch : Option String
  base_version : Option String
  pull_request_id : Option String
  endpoint : Option String
deriving DecidableEq, Repr

/-- One row of `class_nodes_to_delete` / `method_nodes_to_delete`. -/
structure DelRec where
  class_name : String
  method_name : Option String
  project_id : String
  branch : String
deriving DecidableEq, Repr

/-- One element of the caller-supplied `deleted_nodes` list.  `none` plays
Python's "key absent / None" for the optional entries. -/
structure DeletedRec where
  name : String
  class_name : String
  method_name : Option String
  node_type : Option String
  file_path : Option String
  ast_hash : Option String
  project_id : Option String
  branch : Option String
deriving DecidableEq, Repr

/-- One row of `tombstone_data`. -/
structure TombRec where
  name : String
  node_type : String
  class_name : String
  method_name : Option String
  file_path : String
  content : String
  ast_hash : String
  project_id : String
  branch : String
  version : String
  status : String
  base_branch : Option String
  base_version : Option String
deriving DecidableEq, Repr

/-- One relationship row (`call_rels` / `implement_rels` / `use_rels`).  Only
the keys the relationship queries read are kept; the service classifies a row
as method-level iff the `source_method` key is present. -/
structure RelRec where
  source_class : Option String
  source_method : Option String
  target_class : Option String
  target_method : Option String
  project_id : String
  branch : String
deriving DecidableEq, Repr

/-- Python `str()` of a tuple of strings (used for `str(method.field_access)`). -/
def pyStrTuple : List String → String
  | [] => "()"
  | [x] => "('" ++ x ++ "',)"
  | l => "(" ++ String.intercalate ", " (l.map (fun s => "'" ++ s ++ "'")) ++ ")"

/-- `[DELETED] {class}{('.' + method) if method else ''}` marker content. -/
def tombContent (cls : String) (m : Option String) : String :=
  "[DELETED] " ++ cls ++
    (match m with
     | some s => if s == "" then "" else "." ++ s
     | none => "")

/-- Build one `tombstone_data` row from a `deleted_nodes` entry. -/
def tombRecFor (chunks : List CodeChunk) (version : Option String)
    (base_branch base_version : Option String) (d : DeletedRec) : TombRec :=
  { name := d.name
    node_type :=
      if optTruthy d.method_name then d.node_type.getD "MethodNode"
      else d.node_type.getD "ClassNode"
    class_name := d.class_name
    method_name := d.method_name
    file_path := d.file_path.getD ""
    content := tombContent d.class_name d.method_name
    ast_hash := d.ast_hash.getD ""
    project_id := d.project_id.getD (match chunks with | c :: _ => c.project_id | [] => "")
    branch := d.branch.getD (match chunks with | c :: _ => c.branch | [] => "")
    version := orUnknown version
    status := "DELETED"
    base_branch := base_branch
    base_version := base_version }

/-- `getattr(x, 'status', 'ACTIVE')`, applied only on feature branches
(`if base_branch and base_version:`), else `'ACTIVE'`. -/
def recStatus (base_branch base_version : Option String) (st : Option String) : String :=
  if optTruthy base_branch && optTruthy base_version then st.getD "ACTIVE" else "ACTIVE"

/-- `pull_request_id` is attached only when provided and the fact's branch
differs from `main_branch` (`if pull_request_id and chunk.branch != main_branch:`). -/
def prInclude (pr : Option String) (branch : String) (main : Option String) : Option String :=
  match pr with
  | some p =>
    if (!(p == "")) && (match main with | none => true | some m => !(branch == m))
    then some p else none
  | none => none

/-- The `node_data` row built for a chunk's class-level node. -/
def classNodeRec (main base baseVer pr version : Option String) (chunk : CodeChunk) : NodeRec :=
  { name := chunk.class_name
    node_type := if chunk.type = ChunkType.CONFIGURATION then "ConfigurationNode" else "ClassNode"
    file_path := chunk.file_path
    class_name := chunk.full_class_name
    method_name := none
    content := escapeForCypher (some chunk.content)
    ast_hash := chunk.ast_hash
    project_id := chunk.project_id
    branch := chunk.branch
    version := orUnknown version
    status := recStatus base baseVer chunk.status
    base_branch := base
    base_version := baseVer
    pull_request_id := prInclude pr chunk.branch main
    endpoint := none }

/-- The `node_data` row built for one method of a chunk. -/
def methodNodeRec (main base baseVer pr version : Option String) (chunk : CodeChunk)
    (m : Method) : NodeRec :=
  { name := m.name
    node_type :=
      if m.type = ChunkType.CONFIGURATION then "ConfigurationNode"
      else if m.type = ChunkType.ENDPOINT then "EndpointNode"
      else "MethodNode"
    file_path := chunk.file_path
    class_name := chunk.full_class_name
    method_name := some m.full_name
    content := escapeForCypher (some m.body) ++ " " ++ pyStrTuple m.field_access
    ast_hash := m.ast_hash
    project_id := m.project_id
    branch := m.branch
    version := orUnknown version
    status := recStatus base baseVer m.status
    base_branch := base
    base_version := baseVer
    pull_request_id := prInclude pr m.branch main
    endpoint := match m.endpoint with | some e => if e == "" then none else some e | none => none }

/-- All `node_data` rows of one chunk, class row first. -/
def nodeRecsForChunk (main base baseVer pr version : Option String)
    (chunk : CodeChunk) : List NodeRec :=
  classNodeRec main base baseVer pr version chunk ::
    chunk.methods.map (methodNodeRec main base baseVer pr version chunk)

/-- The `class_nodes_to_delete` row of a chunk. -/
def classDelRec (chunk : CodeChunk) : DelRec :=
  { class_name := chunk.full_class_name, method_name := none
    project_id := chunk.project_id, branch := chunk.branch }

/-- The `method_nodes_to_delete` row of one method. -/
def methodDelRec (chunk : CodeChunk) (m : Method) : DelRec :=
  { class_name := chunk.full_class_name, method_name := some m.full_name
    project_id := m.project_id, branch := m.branch }

/-- `call_rels` rows of one chunk (`if call_name:` drops empty names). -/
def callRelsOf (chunk : CodeChunk) : List RelRec :=
  chunk.methods.flatMap (fun m =>
    m.method_calls.filterMap (fun c =>
      if c.name == "" then none
      else some { source_class := some chunk.full_class_name
                  source_method := some m.full_name
                  target_class := none
                  target_method := some c.name
                  project_id := chunk.project_id
                  branch := chunk.branch }))

/-- `implement_rels` rows of one chunk: class rows from `chunk.implements`
(note the chunk is the *target*), then method rows from each method's
`inheritance_info` (those carry a `source_method` key and no `source_class`). -/
def implementRelsOf (chunk : CodeChunk) : List RelRec :=
  (chunk.implements.map (fun impl =>
    { source_class := some impl, source_method := none
      target_class := some chunk.full_class_name, target_method := none
      project_id := chunk.project_id, branch := chunk.branch })) ++
  chunk.methods.flatMap (fun m =>
    m.inheritance_info.filterMap (fun inh =>
      if inh == "" then none
      else some { source_class := none, source_method := some inh
                  target_class := some chunk.full_class_name
                  target_method := some m.full_name
                  project_id := chunk.project_id, branch := chunk.branch }))

/-- `use_rels` rows of one chunk, in the order the service appends them:
class-level used types; per method its used types, its annotations, and its
`handles_annotation` reverse row (that one has no `source_method` key); then
class-level annotations and the class-level `handles_annotation` reverse row. -/
def useRelsOf (chunk : CodeChunk) : List RelRec :=
  let cls := chunk.full_class_name
  let pid := chunk.project_id
  let br := chunk.branch
  (chunk.used_types.filterMap (fun u =>
    if u == "" then none
    else some { source_class := some cls, source_method := none
                target_class := some u, target_method := none
                project_id := pid, branch := br })) ++
  (chunk.methods.flatMap (fun m =>
    (m.used_types.filterMap (fun u =>
      if u == "" then none
      else some { source_class := some cls, source_method := some m.full_name
                  target_class := some u, target_method := none
                  project_id := pid, branch := br })) ++
    (m.annots.filterMap (fun a =>
      if a == "" then none
      else some { source_class := some cls, source_method := some m.full_name
                  target_class := some a, target_method := none
                  project_id := pid, branch := br })) ++
    (match m.handlesAnn with
     | some h =>
       if h == "" then []
       else [{ source_class := some h, source_method := none
               target_class := some cls, target_method := some m.full_name
               project_id := pid, branch := br }]
     | none => []))) ++
  (chunk.annots.filterMap (fun a =>
    if a == "" then none
    else some { source_class := some cls, source_method := none
                target_class := some a, target_method := none
                project_id := pid, branch := br })) ++
  (match chunk.handlesAnn with
   | some h =>
     if h == "" then []
     else [{ source_class := some h, source_method := none
             target_class := some cls, target_method := none
             project_id := pid, branch := br }]
   | none => [])

end SourceAtlas

namespace SourceAtlas

/-- `OPTIONAL MATCH` row expansion: one `null` row when nothing matches,
one row per matched node otherwise. -/
def optRows (l : List DbNode) : List (Option DbNode) :=
  match l with
  | [] => [none]
  | _ => l.map some

/-- Rows of `COALESCE(base_row, main_row)` over the product of two
`OPTIONAL MATCH`es, with the `WHERE … IS NOT NULL` filter applied. -/
def coalesceRows (tb tm : List DbNode) : List DbNode :=
  ((optRows tb).flatMap (fun b => (optRows tm).map (fun m => (b, m)))).filterMap
    (fun bm => match bm.1 with | some x => some x | none => bm.2)

/-- Map-pattern comparison of a node property against a possibly-`null`
pattern value: `{p: null}` matches no node. -/
def patEq (v : Option String) (prop : Option String) : Bool :=
  match v with
  | some s => prop == some s
  | none => false

/-- The `OPTIONAL MATCH (x {class_name, project_id, branch,
method_name: CASE WHEN … ELSE null END})` comparison lookup of the
node-creation queries, against a fixed branch. -/
def cmpMatches (g : Graph) (branch : String) (r : NodeRec) : List DbNode :=
  g.nodes.filter (fun n =>
    n.class_name == r.class_name && n.project_id == r.project_id &&
    n.branch == branch && patEq r.method_name n.method_name)

/-- The `WHERE` gate of the both-branches node-creation query:
base node found and hash differs, or no base node and main node found with a
different hash, or neither found. -/
def gateBaseMain (r : NodeRec) (b m : Option DbNode) : Bool :=
  match b with
  | some bn => !(r.ast_hash == bn.ast_hash)
  | none =>
    match m with
    | some mn => !(r.ast_hash == mn.ast_hash)
    | none => true

/-- The `WHERE main_node IS NULL OR main_node.ast_hash <> node.ast_hash` gate. -/
def gateMain (r : NodeRec) (m : Option DbNode) : Bool :=
  match m with
  | some mn => !(r.ast_hash == mn.ast_hash)
  | none => true

/-- Number of rows of one `node_data` entry that reach `apoc.create.node`
in the both-branches creation query (rows of the two `OPTIONAL MATCH`es
multiply; the matches read the state at query start). -/
def newCountBaseMain (g : Graph) (main base : String) (r : NodeRec) : Nat :=
  ((optRows (cmpMatches g base r)).flatMap (fun b =>
    (optRows (cmpMatches g main r)).map (fun m => (b, m)))).countP
    (fun bm => gateBaseMain r bm.1 bm.2)

/-- Same for the main-branch-only creation query. -/
def newCountMain (g : Graph) (main : String) (r : NodeRec) : Nat :=
  (optRows (cmpMatches g main r)).countP (fun m => gateMain r m)

/-- The node `apoc.create.node([node.node_type], {…})` builds from a
`node_data` row, at internal id `i`. -/
def nodeOfRec (r : NodeRec) (i : Nat) : DbNode :=
  { nid := i, label := r.node_type, name := r.name, file_path := r.file_path
    class_name := r.class_name, method_name := r.method_name, content := r.content
    ast_hash := r.ast_hash, project_id := r.project_id, branch := r.branch
    version := r.version, status := r.status, base_branch := r.base_branch
    base_version := r.base_version, pull_request_id := r.pull_request_id
    endpoint := r.endpoint }

/-- The node a tombstone row creates (no `pull_request_id`/`endpoint` keys). -/
def nodeOfTomb (t : TombRec) (i : Nat) : DbNode :=
  { nid := i, label := t.node_type, name := t.name, file_path := t.file_path
    class_name := t.class_name, method_name := t.method_name, content := t.content
    ast_hash := t.ast_hash, project_id := t.project_id, branch := t.branch
    version := t.version, status := t.status, base_branch := t.base_branch
    base_version := t.base_version, pull_request_id := none, endpoint := none }

/-- Append `k` fresh copies of a `node_data` row (fresh sequential ids). -/
def appendCreated (g : Graph) (rk : NodeRec × Nat) : Graph :=
  { g with nodes := g.nodes ++ (List.range rk.2).map (fun j => nodeOfRec rk.1 (g.nextId + j))
           nextId := g.nextId + rk.2 }

/-- `DETACH DELETE` every node satisfying `p` (incident edges removed too). -/
def detachDelete (g : Graph) (p : DbNode → Bool) : Graph :=
  let delIds := (g.nodes.filter p).map DbNode.nid
  { g with nodes := g.nodes.filter (fun n => !(p n))
           edges := g.edges.filter (fun e => !(delIds.contains e.src) && !(delIds.contains e.tgt)) }

/-- Does the class-node delete query delete node `n`, given its `UNWIND` rows?
Map pattern `{class_name, project_id, branch}` plus
`WHERE n.method_name IS NULL AND n.pull_request_id IS NULL`. -/
def classDelHits (recs : List DelRec) (n : DbNode) : Bool :=
  (recs.any (fun r =>
    n.class_name == r.class_name && n.project_id == r.project_id && n.branch == r.branch)) &&
  n.method_name == none && n.pull_request_id == none

/-- Same for the method-node delete query: map pattern adds
`method_name: node.method_name`, `WHERE … IS NOT NULL AND pull_request_id IS NULL`. -/
def methodDelHits (recs : List DelRec) (n : DbNode) : Bool :=
  (recs.any (fun r =>
    n.class_name == r.class_name && patEq r.method_name n.method_name &&
    n.project_id == r.project_id && n.branch == r.branch)) &&
  !(n.method_name == none) && n.pull_request_id == none

/-- `MERGE`-style relationship creation: add only when absent. -/
def mergeEdge (es : List DbEdge) (e : DbEdge) : List DbEdge :=
  if e ∈ es then es else es ++ [e]

/-- `MERGE` a whole row set in order (each `MERGE` sees earlier creations). -/
def mergeEdges (es : List DbEdge) (new : List DbEdge) : List DbEdge :=
  new.foldl mergeEdge es

/-- Source lookup of the CALL queries:
`MATCH (source {class_name, method_name, project_id, branch: rel.branch})`. -/
def callSources (g : Graph) (r : RelRec) : List DbNode :=
  g.nodes.filter (fun n =>
    patEq r.source_class (some n.class_name) && patEq r.source_method n.method_name &&
    n.project_id == r.project_id && n.branch == r.branch)

/-- Target lookup of the CALL queries in a given branch:
`(target {method_name: rel.target_method, project_id, branch})` — no class
constraint. -/
def callTargets (g : Graph) (branch : String) (r : RelRec) : List DbNode :=
  g.nodes.filter (fun n =>
    patEq r.target_method n.method_name && n.project_id == r.project_id && n.branch == branch)

/-- Class-level endpoint lookup `(x {class_name, project_id, branch})`
`WHERE x.method_name IS NULL`, with a possibly-`null` branch parameter
(`branch: null` matches nothing). -/
def classEndMatches (g : Graph) (branchP : Option String) (cls : Option String)
    (pid : String) : List DbNode :=
  g.nodes.filter (fun n =>
    patEq cls (some n.class_name) && n.project_id == pid &&
    patEq branchP (some n.branch) && n.method_name == none)

/-- Method-only lookup `(x {method_name, project_id, branch})` (no class). -/
def methodOnlyMatches (g : Graph) (branchP : Option String) (m : Option String)
    (pid : String) : List DbNode :=
  g.nodes.filter (fun n =>
    patEq m n.method_name && n.project_id == pid && patEq branchP (some n.branch))

/-- Lookup `(x {class_name, method_name, project_id, branch})`. -/
def classMethodMatches (g : Graph) (branchP : Option String) (cls m : Option String)
    (pid : String) : List DbNode :=
  g.nodes.filter (fun n =>
    patEq cls (some n.class_name) && patEq m n.method_name &&
    n.project_id == pid && patEq branchP (some n.branch))

end SourceAtlas

namespace SourceAtlas

/-- One generated Cypher query, one constructor per query template that
`generate_cypher_from_chunks` appends to `all_queries`. -/
inductive CypherOp
  /-- The `apoc.create.node([tomb.node_type], …)` tombstone query (step 1). -/
  | createTombstones (tombs : List TombRec)
  /-- `UNWIND $nodes … MATCH (n {class_name, project_id, branch}) WHERE
  n.method_name IS NULL AND n.pull_request_id IS NULL DETACH DELETE n`. -/
  | deleteClassNodes (recs : List DelRec)
  /-- The method-node variant of the delete query. -/
  | deleteMethodNodes (recs : List DelRec)
  /-- Node creation when both `main_branch` and `base_branch` are truthy. -/
  | createNodesBaseMain (recs : List NodeRec) (main base : String)
  /-- Node creation when only `main_branch` is truthy. -/
  | createNodesMain (recs : List NodeRec) (main : String)
  /-- Unconditional node creation (no truthy `main_branch`). -/
  | createNodesPlain (recs : List NodeRec)
  /-- CALL edges, `base_branch` + `main_branch` target fallback. -/
  | callRelsBase (recs : List RelRec) (base main : String)
  /-- CALL edges, `main_branch`-only target. -/
  | callRelsMain (recs : List RelRec) (main : String)
  /-- CALL edges, both endpoints in `rel.branch`. -/
  | callRelsPlain (recs : List RelRec)
  /-- Class-level IMPLEMENT edges with base/main fallback on both endpoints
  (the `base` query parameter may be `null`). -/
  | implClassFallback (recs : List RelRec) (base : Option String) (main : String)
  /-- Class-level IMPLEMENT edges, both endpoints in `rel.branch`. -/
  | implClassPlain (recs : List RelRec)
  /-- Method-level IMPLEMENT edges with base/main fallback on both endpoints. -/
  | implMethodFallback (recs : List RelRec) (base : Option String) (main : String)
  /-- Method-level IMPLEMENT edges, both endpoints in `rel.branch`. -/
  | implMethodPlain (recs : List RelRec)
  /-- Class-level USE edges: source in `rel.branch`, target base/main fallback. -/
  | useClassFallback (recs : List RelRec) (base : Option String) (main : String)
  /-- Class-level USE edges, both endpoints in `rel.branch`. -/
  | useClassPlain (recs : List RelRec)
  /-- Method-level USE edges: source in `rel.branch`, target base/main fallback. -/
  | useMethodFallback (recs : List RelRec) (base : Option String) (main : String)
  /-- Method-level USE edges, both endpoints in `rel.branch`. -/
  | useMethodPlain (recs : List RelRec)
deriving DecidableEq, Repr

/-- The `(source, target)` MERGE rows of one CALL rel row under base/main
target fallback. -/
def callPairsBase (g : Graph) (base main : String) (r : RelRec) : List DbEdge :=
  (callSources g r).flatMap (fun s =>
    (coalesceRows (callTargets g base r) (callTargets g main r)).map (fun t =>
      DbEdge.mk s.nid t.nid "CALL"))

/-- The MERGE rows of one CALL rel row with a main-branch-only target. -/
def callPairsMain (g : Graph) (main : String) (r : RelRec) : List DbEdge :=
  (callSources g r).flatMap (fun s =>
    (callTargets g main r).map (fun t => DbEdge.mk s.nid t.nid "CALL"))

/-- The MERGE rows of one CALL rel row with both endpoints in `rel.branch`. -/
def callPairsPlain (g : Graph) (r : RelRec) : List DbEdge :=
  (callSources g r).flatMap (fun s =>
    (callTargets g r.branch r).map (fun t => DbEdge.mk s.nid t.nid "CALL"))

/-- MERGE rows of one class-level IMPLEMENT row in fallback mode: *both*
endpoints are resolved `base` first, then `main`. -/
def implClassPairsFallback (g : Graph) (base : Option String) (main : String)
    (r : RelRec) : List DbEdge :=
  (coalesceRows (classEndMatches g base r.source_class r.project_id)
      (classEndMatches g (some main) r.source_class r.project_id)).flatMap (fun s =>
    (coalesceRows (classEndMatches g base r.target_class r.project_id)
        (classEndMatches g (some main) r.target_class r.project_id)).map (fun t =>
      DbEdge.mk s.nid t.nid "IMPLEMENT"))

/-- MERGE rows of one class-level IMPLEMENT row, endpoints in `rel.branch`. -/
def implClassPairsPlain (g : Graph) (r : RelRec) : List DbEdge :=
  (classEndMatches g (some r.branch) r.source_class r.project_id).flatMap (fun s =>
    (classEndMatches g (some r.branch) r.target_class r.project_id).map (fun t =>
      DbEdge.mk s.nid t.nid "IMPLEMENT"))

/-- MERGE rows of one method-level IMPLEMENT row in fallback mode: source by
`method_name` only, target by `(class_name, method_name)`, both base→main. -/
def implMethodPairsFallback (g : Graph) (base : Option String) (main : String)
    (r : RelRec) : List DbEdge :=
  (coalesceRows (methodOnlyMatches g base r.source_method r.project_id)
      (methodOnlyMatches g (some main) r.source_method r.project_id)).flatMap (fun s =>
    (coalesceRows (classMethodMatches g base r.target_class r.target_method r.project_id)
        (classMethodMatches g (some main) r.target_class r.target_method r.project_id)).map
      (fun t => DbEdge.mk s.nid t.nid "IMPLEMENT"))

/-- MERGE rows of one method-level IMPLEMENT row, endpoints in `rel.branch`. -/
def implMethodPairsPlain (g : Graph) (r : RelRec) : List DbEdge :=
  (methodOnlyMatches g (some r.branch) r.source_method r.project_id).flatMap (fun s =>
    (classMethodMatches g (some r.branch) r.target_class r.target_method r.project_id).map
      (fun t => DbEdge.mk s.nid t.nid "IMPLEMENT"))

/-- MERGE rows of one class-level USE row in fallback mode: source in
`rel.branch`, target base→main. -/
def useClassPairsFallback (g : Graph) (base : Option String) (main : String)
    (r : RelRec) : List DbEdge :=
  (classEndMatches g (some r.branch) r.source_class r.project_id).flatMap (fun s =>
    (coalesceRows (classEndMatches g base r.target_class r.project_id)
        (classEndMatches g (some main) r.target_class r.project_id)).map (fun t =>
      DbEdge.mk s.nid t.nid "USE"))

/-- MERGE rows of one class-level USE row, both endpoints in `rel.branch`. -/
def useClassPairsPlain (g : Graph) (r : RelRec) : List DbEdge :=
  (classEndMatches g (some r.branch) r.source_class r.project_id).flatMap (fun s =>
    (classEndMatches g (some r.branch) r.target_class r.project_id).map (fun t =>
      DbEdge.mk s.nid t.nid "USE"))

/-- MERGE rows of one method-level USE row in fallback mode. -/
def useMethodPairsFallback (g : Graph) (base : Option String) (main : String)
    (r : RelRec) : List DbEdge :=
  (classMethodMatches g (some r.branch) r.source_class r.source_method r.project_id).flatMap
    (fun s =>
      (coalesceRows (classEndMatches g base r.target_class r.project_id)
          (classEndMatches g (some main) r.target_class r.project_id)).map (fun t =>
        DbEdge.mk s.nid t.nid "USE"))

/-- MERGE rows of one method-level USE row, both endpoints in `rel.branch`. -/
def useMethodPairsPlain (g : Graph) (r : RelRec) : List DbEdge :=
  (classMethodMatches g (some r.branch) r.source_class r.source_method r.project_id).flatMap
    (fun s =>
      (classEndMatches g (some r.branch) r.target_class r.project_id).map (fun t =>
        DbEdge.mk s.nid t.nid "USE"))

/-- Execute one generated query against the store state. -/
def applyOp (g : Graph) : CypherOp → Graph
  | .createTombstones tombs =>
    { g with nodes := g.nodes ++ tombs.enum.map (fun ti => nodeOfTomb ti.2 (g.nextId + ti.1))
             nextId := g.nextId + tombs.length }
  | .deleteClassNodes recs => detachDelete g (classDelHits recs)
  | .deleteMethodNodes recs => detachDelete g (methodDelHits recs)
  | .createNodesBaseMain recs main base =>
    (recs.map (fun r => (r, newCountBaseMain g main base r))).foldl appendCreated g
  | .createNodesMain recs main =>
    (recs.map (fun r => (r, newCountMain g main r))).foldl appendCreated g
  | .createNodesPlain recs =>
    (recs.map (fun r => (r, 1))).foldl appendCreated g
  | .callRelsBase recs base main =>
    { g with edges := mergeEdges g.edges (recs.flatMap (callPairsBase g base main)) }
  | .callRelsMain recs main =>
    { g with edges := mergeEdges g.edges (recs.flatMap (callPairsMain g main)) }
  | .callRelsPlain recs =>
    { g with edges := mergeEdges g.edges (recs.flatMap (callPairsPlain g)) }
  | .implClassFallback recs base main =>
    { g with edges := mergeEdges g.edges (recs.flatMap (implClassPairsFallback g base main)) }
  | .implClassPlain recs =>
    { g with edges := mergeEdges g.edges (recs.flatMap (implClassPairsPlain g)) }
  | .implMethodFallback recs base main =>
    { g with edges := mergeEdges g.edges (recs.flatMap (implMethodPairsFallback g base main)) }
  | .implMethodPlain recs =>
    { g with edges := mergeEdges g.edges (recs.flatMap (implMethodPairsPlain g)) }
  | .useClassFallback recs base main =>
    { g with edges := mergeEdges g.edges (recs.flatMap (useClassPairsFallback g base main)) }
  | .useClassPlain recs =>
    { g with edges := mergeEdges g.edges (recs.flatMap (useClassPairsPlain g)) }
  | .useMethodFallback recs base main =>
    { g with edges := mergeEdges g.edges (recs.flatMap (useMethodPairsFallback g base main)) }
  | .useMethodPlain recs =>
    { g with edges := mergeEdges g.edges (recs.flatMap (useMethodPairsPlain g)) }

/-- Run a query list in order (`execute_queries_batch` when nothing fails). -/
def applyOps (g : Graph) (ops : List CypherOp) : Graph :=
  ops.foldl applyOp g

end SourceAtlas

namespace SourceAtlas

/-- `range(0, len(chunks), batch_size)` slicing (fuel = list length; each
step consumes at least one element when `n > 0`, matching Python, where a
zero step is an error). -/
def chunkBatchesAux : Nat → Nat → List α → List (List α)
  | 0, _, _ => []
  | _, _, [] => []
  | fuel + 1, n, x :: xs => (x :: xs).take n :: chunkBatchesAux fuel n ((x :: xs).drop n)

/-- The batches `chunks[i:i + batch_size]` for `i = 0, batch_size, …`. -/
def chunkBatches (n : Nat) (xs : List α) : List (List α) :=
  chunkBatchesAux xs.length n xs

/-- Step 1 of `generate_cypher_from_chunks`: the tombstone query, present
iff `deleted_nodes` is truthy. -/
def tombstoneOps (chunks : List CodeChunk) (version base baseVer : Option String)
    (deleted : Option (List DeletedRec)) : List CypherOp :=
  match deleted with
  | some ds =>
    if ds.isEmpty then []
    else [CypherOp.createTombstones (ds.map (tombRecFor chunks version base baseVer))]
  | none => []

/-- The per-chunk accumulation of delete queries inside the batch loop: after
each chunk, the *whole accumulated* class / method delete lists are appended
again as fresh queries (`if class_nodes_to_delete: …` runs inside the chunk
loop), so the same rows recur in later queries of the same batch. -/
def deleteOpsAux : List CodeChunk → List DelRec → List DelRec → List CypherOp
  | [], _, _ => []
  | c :: rest, cAcc, mAcc =>
    let cAcc' := cAcc ++ [classDelRec c]
    let mAcc' := mAcc ++ c.methods.map (methodDelRec c)
    (if cAcc'.isEmpty then [] else [CypherOp.deleteClassNodes cAcc']) ++
    (if mAcc'.isEmpty then [] else [CypherOp.deleteMethodNodes mAcc']) ++
    deleteOpsAux rest cAcc' mAcc'

/-- Choice of node-creation query: `if main_branch and base_branch: … elif
main_branch: … else: …` (Python truthiness: `None` and `""` are falsy). -/
def createOpFor (recs : List NodeRec) (main base : Option String) : CypherOp :=
  if optTruthy main && optTruthy base then
    CypherOp.createNodesBaseMain recs (main.getD "") (base.getD "")
  else if optTruthy main then CypherOp.createNodesMain recs (main.getD "")
  else CypherOp.createNodesPlain recs

/-- Node-phase queries of one batch: the accumulated delete queries followed
by the single node-creation query for the batch's `node_data`. -/
def nodeOpsForBatch (main base baseVer pr version : Option String)
    (batch : List CodeChunk) : List CypherOp :=
  deleteOpsAux batch [] [] ++
    [createOpFor (batch.flatMap (nodeRecsForChunk main base baseVer pr version)) main base]

/-- Edge-phase queries of one batch: CALL, then IMPLEMENT (class then
method), then USE (class then method), each only when its row list is
non-empty, picking the fallback variant iff `main_branch` is truthy (CALL
further splits on `base_branch`). -/
def relOpsForBatch (main base : Option String) (batch : List CodeChunk) : List CypherOp :=
  let calls := batch.flatMap callRelsOf
  let impls := batch.flatMap implementRelsOf
  let uses := batch.flatMap useRelsOf
  let classImpls := impls.filter (fun r => r.source_method == none)
  let methodImpls := impls.filter (fun r => !(r.source_method == none))
  let classUses := uses.filter (fun r => r.source_method == none)
  let methodUses := uses.filter (fun r => !(r.source_method == none))
  (if calls.isEmpty then []
   else if optTruthy main then
     if optTruthy base then [CypherOp.callRelsBase calls (base.getD "") (main.getD "")]
     else [CypherOp.callRelsMain calls (main.getD "")]
   else [CypherOp.callRelsPlain calls]) ++
  (if classImpls.isEmpty then []
   else if optTruthy main then [CypherOp.implClassFallback classImpls base (main.getD "")]
   else [CypherOp.implClassPlain classImpls]) ++
  (if methodImpls.isEmpty then []
   else if optTruthy main then [CypherOp.implMethodFallback methodImpls base (main.getD "")]
   else [CypherOp.implMethodPlain methodImpls]) ++
  (if classUses.isEmpty then []
   else if optTruthy main then [CypherOp.useClassFallback classUses base (main.getD "")]
   else [CypherOp.useClassPlain classUses]) ++
  (if methodUses.isEmpty then []
   else if optTruthy main then [CypherOp.useMethodFallback methodUses base (main.getD "")]
   else [CypherOp.useMethodPlain methodUses])

/-- `generate_cypher_from_chunks`: tombstone query, then the node phase for
every batch, then the edge phase for every batch. -/
def generate_cypher_from_chunks (chunks : List CodeChunk) (batch_size : Nat)
    (main base pr version baseVer : Option String)
    (deleted : Option (List DeletedRec)) : List CypherOp :=
  tombstoneOps chunks version base baseVer deleted ++
  (chunkBatches batch_size chunks).flatMap (nodeOpsForBatch main base baseVer pr version) ++
  (chunkBatches batch_size chunks).flatMap (relOpsForBatch main base)

/-- The `'-[' not in query` filter of `import_changed_chunk_nodes_only`:
exactly the tombstone / delete / node-creation query texts have no `-[`. -/
def isNodeOp : CypherOp → Bool
  | .createTombstones _ => true
  | .deleteClassNodes _ => true
  | .deleteMethodNodes _ => true
  | .createNodesBaseMain _ _ _ => true
  | .createNodesMain _ _ => true
  | .createNodesPlain _ => true
  | _ => false

/-- The keyword filter of `import_changed_chunk_relationships` (`'MERGE
(source)-['`, `'CALL]'`, `'IMPLEMENT]'`, `'USE]'`, …): exactly the
relationship query texts contain one of the keywords. -/
def isRelOp (op : CypherOp) : Bool :=
  !(isNodeOp op)

end SourceAtlas

namespace SourceAtlas

/-- One row returned by `save_changed_nodes_relationships`: business keys
only, no internal ids. -/
structure SavedRel where
  unchanged_class : String
  unchanged_method : Option String
  rel_type : String
  changed_class : String
  changed_method : Option String
deriving DecidableEq, Repr

/-- `changed_node_keys`: every chunk's class key and `class.method` keys. -/
def changedNodeKeys (chunks : List CodeChunk) : List String :=
  chunks.flatMap (fun c =>
    c.full_class_name :: c.methods.map (fun m => c.full_class_name ++ "." ++ m.full_name))

/-- `save_changed_nodes_relationships`: every edge `(unchanged)-[r]->(changed)`
inside the non-PR part of the `(project, branch)` partition whose *target*
key is in the changed set and whose *source* key is not, reported as a
business-key tuple. -/
def save_changed_nodes_relationships (g : Graph) (project_id branch : String)
    (changed_chunks : List CodeChunk) : List SavedRel :=
  let keys := changedNodeKeys changed_chunks
  g.edges.flatMap (fun e =>
    (g.nodes.filter (fun u =>
      u.nid == e.src && u.project_id == project_id && u.branch == branch &&
      u.pull_request_id == none)).flatMap (fun u =>
      (g.nodes.filter (fun c =>
        c.nid == e.tgt && c.project_id == project_id && c.branch == branch &&
        c.pull_request_id == none)).filterMap (fun c =>
        if keys.contains (nodeKey c) && !(keys.contains (nodeKey u)) then
          some { unchanged_class := u.class_name, unchanged_method := u.method_name
                 rel_type := e.typ, changed_class := c.class_name
                 changed_method := c.method_name }
        else none)))

end SourceAtlas

namespace SourceAtlas

/-- `restore_changed_nodes_relationships`: re-resolve both endpoints of each
saved tuple by business key inside the partition (NULL-aware on
`method_name`) and recreate the edge with `apoc.create.relationship`
(which always creates — duplicates are possible). -/
def restore_changed_nodes_relationships (g : Graph) (project_id branch : String)
    (saved : List SavedRel) : Graph :=
  if saved.isEmpty then g
  else
    { g with edges := g.edges ++ saved.flatMap (fun r =>
        (g.nodes.filter (fun u =>
          u.project_id == project_id && u.branch == branch &&
          u.class_name == r.unchanged_class && u.pull_request_id == none &&
          ((r.unchanged_method == none && u.method_name == none) ||
            patEq r.unchanged_method u.method_name))).flatMap (fun u =>
          (g.nodes.filter (fun c =>
            c.project_id == project_id && c.branch == branch &&
            c.class_name == r.changed_class && c.pull_request_id == none &&
            ((r.changed_method == none && c.method_name == none) ||
              patEq r.changed_method c.method_name))).map (fun c =>
            DbEdge.mk u.nid c.nid r.rel_type))) }

/-- Is node id `i` bound to a node of the `(project, branch)` partition? -/
def inPartition (g : Graph) (project_id branch : String) (i : Nat) : Bool :=
  g.nodes.any (fun n => n.nid == i && n.project_id == project_id && n.branch == branch)

/-- `remove_duplicate_relationships`: among edges whose two endpoints are in
the partition, group by `(source, target, type)` and delete all but the
first of each group. -/
def remove_duplicate_relationships (g : Graph) (project_id branch : String) : Graph :=
  { g with edges := (g.edges.enum.filter (fun ie =>
      !(inPartition g project_id branch ie.2.src && inPartition g project_id branch ie.2.tgt &&
        decide (ie.2 ∈ g.edges.take ie.1)))).map (fun ie => ie.2) }

/-- `import_changed_chunk_nodes_only`: generate, keep only queries whose text
has no `-[` (the node-phase queries), execute. -/
def doImportChangedChunkNodesOnly (g : Graph) (chunks : List CodeChunk)
    (main base : Option String) (batch_size : Nat) (pr version baseVer : Option String)
    (deleted : Option (List DeletedRec)) : Graph :=
  applyOps g
    ((generate_cypher_from_chunks chunks batch_size main base pr version baseVer deleted).filter
      isNodeOp)

/-- `import_changed_chunk_relationships`: regenerate with
`pull_request_id=None` (and no `base_version` / `deleted_nodes`), keep only
the relationship queries, execute. -/
def doImportChangedChunkRelationships (g : Graph) (chunks : List CodeChunk)
    (main base : Option String) (batch_size : Nat) (version : Option String) : Graph :=
  applyOps g
    ((generate_cypher_from_chunks chunks batch_size main base none version none none).filter
      isRelOp)

/-- `import_code_chunks` (`ImportFacts`): the five-step
relationship-preserving import.  `base_branch` defaults to the first chunk's
branch when `None`. -/
def doImportCodeChunks (g : Graph) (chunks : List CodeChunk) (batch_size : Nat)
    (main base pr version baseVer : Option String)
    (deleted : Option (List DeletedRec)) : Graph :=
  match chunks with
  | [] => g
  | c :: _ =>
    let project_id := c.project_id
    let branch := c.branch
    let base' := match base with | none => some branch | some b => some b
    let saved := save_changed_nodes_relationships g project_id branch chunks
    let g1 := doImportChangedChunkNodesOnly g chunks main base' batch_size pr version baseVer deleted
    let g2 := if saved.isEmpty then g1
              else restore_changed_nodes_relationships g1 project_id branch saved
    let g3 := doImportChangedChunkRelationships g2 chunks main base' batch_size version
    remove_duplicate_relationships g3 project_id branch

/-- `import_code_chunks_simple` (`ImportFactsSimple`): generate and execute
everything, no preservation protocol; empty input is a no-op. -/
def doImportCodeChunksSimple (g : Graph) (chunks : List CodeChunk) (batch_size : Nat)
    (main base pr version baseVer : Option String)
    (deleted : Option (List DeletedRec)) : Graph :=
  match chunks with
  | [] => g
  | _ :: _ =>
    applyOps g (generate_cypher_from_chunks chunks batch_size main base pr version baseVer deleted)

end SourceAtlas

namespace SourceAtlas

/-- Python-dict insertion used by `_build_changed_node_hashes`
(later assignments overwrite earlier ones). -/
def dictInsert (d : List (String × String)) (k v : String) : List (String × String) :=
  if d.any (fun kv => kv.1 == k) then d.map (fun kv => if kv.1 == k then (k, v) else kv)
  else d ++ [(k, v)]

/-- Lookup in the modelled dict. -/
def dictGet (d : List (String × String)) (k : String) : Option String :=
  (d.find? (fun kv => kv.1 == k)).map (fun kv => kv.2)

/-- `_build_changed_node_hashes`: class keys and `class.method` keys mapped
to the supplied hashes (`{}` when no chunks). -/
def buildChangedNodeHashes (chunks : List CodeChunk) : List (String × String) :=
  chunks.foldl (fun d c =>
    c.methods.foldl
      (fun d2 m => dictInsert d2 (c.full_class_name ++ "." ++ m.full_name) m.ast_hash)
      (dictInsert d c.full_class_name c.ast_hash)) []

/-- Node filter of the clone's count/copy queries: a non-PR node of the
source branch is copied unless its key is in `changed_node_hashes` with a
*different* hash. -/
def cloneEligible (d : List (String × String)) (project_id main_branch : String)
    (n : DbNode) : Bool :=
  n.project_id == project_id && n.branch == main_branch && n.pull_request_id == none &&
  (match dictGet d (nodeKey n) with
   | some h => n.ast_hash == h
   | none => true)

/-- `_cleanup_existing_mappings`: drop the partition's leftover mapping rows,
then drop any mapping row of the project that references no existing node. -/
def cleanupExistingMappings (g : Graph) (project_id current_branch : String) : Graph :=
  let g1 := { g with mappings := g.mappings.filter (fun m =>
    !(m.project_id == project_id && m.branch == current_branch)) }
  { g1 with mappings := g1.mappings.filter (fun m =>
      !(m.project_id == project_id &&
        !(g1.nodes.any (fun n =>
          n.project_id == project_id && (n.nid == m.old_id || n.nid == m.new_id))))) }

/-- One page of `_create_batch_copy_query`: slice the eligible source-branch
nodes, create a copy of each in the target branch (`main_node {.*, branch:
$current_branch}`, fresh id) and `MERGE` its `NodeMapping` row.  Returns the
page's `copied_count`. -/
def copyNodeBatch (g : Graph) (d : List (String × String))
    (project_id main_branch current_branch : String) (skip limit : Nat) : Graph × Nat :=
  let slice := ((g.nodes.filter (cloneEligible d project_id main_branch)).drop skip).take limit
  let copies := slice.enum.map (fun sn =>
    ({ sn.2 with nid := g.nextId + sn.1, branch := current_branch }, sn.2.nid))
  ({ g with nodes := g.nodes ++ copies.map (fun p => p.1)
            mappings := g.mappings ++ copies.map (fun p =>
              Mapping.mk p.2 p.1.nid project_id current_branch)
            nextId := g.nextId + slice.length }, slice.length)

/-- The `while skip < total_nodes` page loop of `_copy_nodes_in_batches`
(`skip += batch_size` each round, stop early when a page copies nothing). -/
def copyLoopAux (d : List (String × String)) (project_id main_branch current_branch : String)
    (bs total : Nat) : Nat → Nat → Graph → Graph × Nat
  | 0, _, g => (g, 0)
  | fuel + 1, skip, g =>
    if skip < total then
      let gc := copyNodeBatch g d project_id main_branch current_branch skip bs
      if gc.2 == 0 then (gc.1, gc.2)
      else
        let rest := copyLoopAux d project_id main_branch current_branch bs total fuel (skip + bs) gc.1
        (rest.1, gc.2 + rest.2)
    else (g, 0)

/-- `_copy_nodes_in_batches`: count the eligible nodes once, then page. -/
def copyNodesInBatches (g : Graph) (d : List (String × String))
    (project_id main_branch current_branch : String) (bs : Nat) : Graph × Nat :=
  let total := (g.nodes.filter (cloneEligible d project_id main_branch)).length
  copyLoopAux d project_id main_branch current_branch bs total (total + 1) 0 g

/-- Rows `(main_source, main_target, rel)` of a source-branch edge whose two
endpoints are non-PR nodes of the source branch. -/
def mainEdgeRows (g : Graph) (project_id main_branch : String) :
    List (DbNode × DbNode × DbEdge) :=
  g.edges.flatMap (fun e =>
    (g.nodes.filter (fun s =>
      s.nid == e.src && s.project_id == project_id && s.branch == main_branch &&
      s.pull_request_id == none)).flatMap (fun s =>
      (g.nodes.filter (fun t =>
        t.nid == e.tgt && t.project_id == project_id && t.branch == main_branch &&
        t.pull_request_id == none)).map (fun t => (s, t, e))))

/-- Rows of `_copy_internal_relationships` before SKIP/LIMIT: both endpoints
have mapping rows; carries `(new source id, new target id, type)`. -/
def internalRelMappedRows (g : Graph) (project_id main_branch current_branch : String) :
    List (Nat × Nat × String) :=
  (mainEdgeRows g project_id main_branch).flatMap (fun st =>
    (g.mappings.filter (fun m =>
      m.old_id == st.1.nid && m.project_id == project_id && m.branch == current_branch)).flatMap
      (fun sm =>
        (g.mappings.filter (fun m =>
          m.old_id == st.2.1.nid && m.project_id == project_id &&
          m.branch == current_branch)).map (fun tm => (sm.new_id, tm.new_id, st.2.2.typ))))

/-- Rows of `_copy_cross_relationships` before SKIP/LIMIT: source mapped,
target unmapped; carries `(new source id, main target node, type)`. -/
def crossRelMappedRows (g : Graph) (project_id main_branch current_branch : String) :
    List (Nat × DbNode × String) :=
  (mainEdgeRows g project_id main_branch).flatMap (fun st =>
    (g.mappings.filter (fun m =>
      m.old_id == st.1.nid && m.project_id == project_id && m.branch == current_branch)).filterMap
      (fun sm =>
        if g.mappings.any (fun m =>
          m.old_id == st.2.1.nid && m.project_id == project_id && m.branch == current_branch)
        then none
        else some (sm.new_id, st.2.1, st.2.2.typ)))

/-- Rows of `_copy_reverse_cross_relationships` before SKIP/LIMIT: source
unmapped, target mapped; carries `(main source node, new target id, type)`. -/
def reverseRelMappedRows (g : Graph) (project_id main_branch current_branch : String) :
    List (DbNode × Nat × String) :=
  (mainEdgeRows g project_id main_branch).flatMap (fun st =>
    if g.mappings.any (fun m =>
      m.old_id == st.1.nid && m.project_id == project_id && m.branch == current_branch)
    then []
    else
      (g.mappings.filter (fun m =>
        m.old_id == st.2.1.nid && m.project_id == project_id &&
        m.branch == current_branch)).map (fun tm => (st.1, tm.new_id, st.2.2.typ)))

/-- The NULL-aware business-key match of the cross queries:
`(x {project_id, branch: $current_branch, class_name: main_node.class_name})`
with the method-name disjunction. -/
def keyMatchCurrent (g : Graph) (project_id current_branch : String) (mn : DbNode) :
    List DbNode :=
  g.nodes.filter (fun x =>
    x.project_id == project_id && x.branch == current_branch &&
    x.class_name == mn.class_name &&
    ((mn.method_name == none && x.method_name == none) ||
      (!(mn.method_name == none) && x.method_name == mn.method_name)))

/-- Generic `while skip < total` page loop for the relationship-copy queries
(each page returns its created-row count; stop early on an empty page). -/
def relLoopAux (step : Graph → Nat → Nat → Graph × Nat) (bs total : Nat) :
    Nat → Nat → Graph → Graph
  | 0, _, g => g
  | fuel + 1, skip, g =>
    if skip < total then
      let gc := step g skip bs
      if gc.2 == 0 then gc.1
      else relLoopAux step bs total fuel (skip + bs) gc.1
    else g

/-- `_copy_internal_relationships`: page over the mapped rows, re-resolve the
copied endpoints by id and `apoc.create.relationship` each pair. -/
def copyInternalRelationships (g : Graph) (project_id main_branch current_branch : String)
    (rbs : Nat) : Graph :=
  let total := (internalRelMappedRows g project_id main_branch current_branch).length
  relLoopAux (fun g' skip limit =>
      let rows := ((internalRelMappedRows g' project_id main_branch current_branch).drop
        skip).take limit
      let newEdges := rows.flatMap (fun r =>
        (g'.nodes.filter (fun cs => cs.nid == r.1)).flatMap (fun cs =>
          (g'.nodes.filter (fun ct => ct.nid == r.2.1)).map (fun ct =>
            DbEdge.mk cs.nid ct.nid r.2.2)))
      ({ g' with edges := g'.edges ++ newEdges }, newEdges.length))
    rbs total (total + 1) 0 g

/-- `_copy_cross_relationships`: copied source by id, target resolved in the
target branch by business key; unmatched targets simply produce no edge. -/
def copyCrossRelationships (g : Graph) (project_id main_branch current_branch : String)
    (rbs : Nat) : Graph :=
  let total := (crossRelMappedRows g project_id main_branch current_branch).length
  relLoopAux (fun g' skip limit =>
      let rows := ((crossRelMappedRows g' project_id main_branch current_branch).drop
        skip).take limit
      let newEdges := rows.flatMap (fun r =>
        (g'.nodes.filter (fun cs => cs.nid == r.1)).flatMap (fun cs =>
          (keyMatchCurrent g' project_id current_branch r.2.1).map (fun ct =>
            DbEdge.mk cs.nid ct.nid r.2.2)))
      ({ g' with edges := g'.edges ++ newEdges }, newEdges.length))
    rbs total (total + 1) 0 g

/-- `_copy_reverse_cross_relationships`: the symmetric case. -/
def copyReverseCrossRelationships (g : Graph) (project_id main_branch current_branch : String)
    (rbs : Nat) : Graph :=
  let total := (reverseRelMappedRows g project_id main_branch current_branch).length
  relLoopAux (fun g' skip limit =>
      let rows := ((reverseRelMappedRows g' project_id main_branch current_branch).drop
        skip).take limit
      let newEdges := rows.flatMap (fun r =>
        (keyMatchCurrent g' project_id current_branch r.1).flatMap (fun cs =>
          (g'.nodes.filter (fun ct => ct.nid == r.2.1)).map (fun ct =>
            DbEdge.mk cs.nid ct.nid r.2.2)))
      ({ g' with edges := g'.edges ++ newEdges }, newEdges.length))
    rbs total (total + 1) 0 g

/-- `_remove_duplicate_nodes`: over the partition's non-PR nodes, group by
`(class_name, method_name)` and `DETACH DELETE` all but the first of each
group.  (In the store the partition's `NodeMapping` rows fall into the
`(null, null)` group of this query; they are held in the separate mapping
table here and are all removed by `_cleanup_mapping_nodes` right after, so
the final state is the same.) -/
def removeDuplicateNodes (g : Graph) (project_id current_branch : String) : Graph :=
  let inPart := fun (n : DbNode) =>
    n.project_id == project_id && n.branch == current_branch && n.pull_request_id == none
  let dup := fun (i : Nat) (n : DbNode) =>
    inPart n && ((g.nodes.take i).any (fun p =>
      inPart p && p.class_name == n.class_name && p.method_name == n.method_name))
  let delIds := (g.nodes.enum.filter (fun inn => dup inn.1 inn.2)).map (fun inn => inn.2.nid)
  { g with nodes := (g.nodes.enum.filter (fun inn => !(dup inn.1 inn.2))).map (fun inn => inn.2)
           edges := g.edges.filter (fun e =>
             !(delIds.contains e.src) && !(delIds.contains e.tgt)) }

/-- `_cleanup_mapping_nodes`: delete the partition's mapping rows. -/
def cleanupMappingNodes (g : Graph) (project_id current_branch : String) : Graph :=
  { g with mappings := g.mappings.filter (fun m =>
      !(m.project_id == project_id && m.branch == current_branch)) }

/-- `copy_unchanged_nodes_from_main` (`CloneBranch`): sweep stale mappings,
copy eligible nodes page-wise, copy internal / cross / reverse-cross
relationships, collapse duplicate identities, sweep the mapping rows.
Returns the copied-node count. -/
def copy_unchanged_nodes_from_main (g : Graph) (project_id main_branch current_branch : String)
    (changed_chunks : List CodeChunk) (batch_size rel_batch_size : Nat) : Graph × Nat :=
  let d := buildChangedNodeHashes changed_chunks
  let g1 := cleanupExistingMappings g project_id current_branch
  let gc := copyNodesInBatches g1 d project_id main_branch current_branch batch_size
  let g3 := copyInternalRelationships gc.1 project_id main_branch current_branch rel_batch_size
  let g4 := copyCrossRelationships g3 project_id main_branch current_branch rel_batch_size
  let g5 := copyReverseCrossRelationships g4 project_id main_branch current_branch rel_batch_size
  let g6 := removeDuplicateNodes g5 project_id current_branch
  let g7 := cleanupMappingNodes g6 project_id current_branch
  (g7, gc.2)

end SourceAtlas

namespace SourceAtlas

/-- Observable actions of `execute_queries_batch`.  `sleepDelay` is the event
a `time.sleep`-style pause between attempts would emit; the source's retry
loop contains no such call, so no execution trace contains it. -/
inductive ExecEvent
  | runAttempt (opIdx attempt : Nat) (ok : Bool)
  | consumeRes (opIdx attempt : Nat)
  | sleepDelay
deriving DecidableEq, Repr

/-- The `while retry_count < max_retries` loop for one operation: run the
query (and `result.consume()` on success, which the success of the attempt
covers), break on success, count a failure and retry otherwise.  Arguments:
attempt index, remaining budget.  Returns the emitted events and whether the
operation eventually succeeded. -/
def attemptLoop (oracle : Nat → Nat → Bool) (i : Nat) : Nat → Nat → List ExecEvent × Bool
  | _, 0 => ([], false)
  | k, r + 1 =>
    if oracle i k then ([ExecEvent.runAttempt i k true, ExecEvent.consumeRes i k], true)
    else
      let rest := attemptLoop oracle i (k + 1) r
      (ExecEvent.runAttempt i k false :: rest.1, rest.2)

/-- `execute_queries_batch` over abstract operations: each list element is
the state transformation its query performs when it commits; `oracle i k`
tells whether attempt `k` of operation `i` succeeds (a failed attempt is
rolled back by the store's per-query transaction).  Returns the final state,
the event trace, and `some i` when operation `i` exhausted its retries and
raised (aborting the remaining operations). -/
def execBatchAux (oracle : Nat → Nat → Bool) (maxRetries : Nat) :
    Nat → List (Graph → Graph) → Graph → Graph × List ExecEvent × Option Nat
  | _, [], g => (g, [], none)
  | i, f :: rest, g =>
    if maxRetries = 0 then
      -- `while retry_count < max_retries` never runs: the operation is
      -- silently skipped and the loop continues with the next one
      execBatchAux oracle maxRetries (i + 1) rest g
    else
      let a := attemptLoop oracle i 0 maxRetries
      if a.2 then
        let r := execBatchAux oracle maxRetries (i + 1) rest (f g)
        (r.1, a.1 ++ r.2.1, r.2.2)
      else (g, a.1, some i)

/-- `execute_queries_batch` starting at operation index 0. -/
def execute_queries_batch (oracle : Nat → Nat → Bool) (maxRetries : Nat)
    (ops : List (Graph → Graph)) (g : Graph) : Graph × List ExecEvent × Option Nat :=
  execBatchAux oracle maxRetries 0 ops g

/-- The `max_retries` default of `execute_queries_batch`. -/
def maxRetriesDefault : Nat := 3

/-- Number of run attempts of operation `i` in a trace. -/
def countAttempts (tr : List ExecEvent) (i : Nat) : Nat :=
  tr.countP (fun e => match e with | ExecEvent.runAttempt j _ _ => j == i | _ => false)

/-- Does the trace touch operation `i` at all? -/
def touchesOp (tr : List ExecEvent) (i : Nat) : Bool :=
  tr.any (fun e => match e with
    | ExecEvent.runAttempt j _ _ => j == i
    | ExecEvent.consumeRes j _ => j == i
    | ExecEvent.sleepDelay => false)

/-- Every successful run is immediately followed by its consume event. -/
def consumedImmediately : List ExecEvent → Bool
  | [] => true
  | ExecEvent.runAttempt i k true :: rest =>
    match rest with
    | ExecEvent.consumeRes i' k' :: _ => i' == i && k' == k && consumedImmediately rest
    | _ => false
  | _ :: rest => consumedImmediately rest

end SourceAtlas

namespace SourceAtlas

theorem isNodeOp_of_mem_tombstoneOps {op : CypherOp} {chunks : List CodeChunk}
    {version base baseVer : Option String} {deleted : Option (List DeletedRec)}
    (h : op ∈ tombstoneOps chunks version base baseVer deleted) : isNodeOp op = true := by
  unfold tombstoneOps at h
  rcases deleted with _ | ds
  · simp at h
  · by_cases hds : ds.isEmpty <;> simp [hds] at h
    subst h; rfl

theorem isNodeOp_of_mem_deleteOpsAux {op : CypherOp} :
    ∀ {l : List CodeChunk} {cAcc mAcc : List DelRec},
      op ∈ deleteOpsAux l cAcc mAcc → isNodeOp op = true := by
  intro l
  induction l with
  | nil => intro cAcc mAcc h; simp [deleteOpsAux] at h
  | cons c rest ih =>
    intro cAcc mAcc h
    unfold deleteOpsAux at h
    rcases List.mem_append.1 h with h' | h'
    · rcases List.mem_append.1 h' with h'' | h''
      · split at h''
        · simp at h''
        · simp only [List.mem_singleton] at h''
          subst h''; rfl
      · split at h''
        · simp at h''
        · simp only [List.mem_singleton] at h''
          subst h''; rfl
    · exact ih h'

theorem isNodeOp_createOpFor (recs : List NodeRec) (main base : Option String) :
    isNodeOp (createOpFor recs main base) = true := by
  unfold createOpFor
  split
  · rfl
  · split <;> rfl

theorem isNodeOp_of_mem_nodeOpsForBatch {op : CypherOp} {b : List CodeChunk}
    {main base baseVer pr version : Option String}
    (h : op ∈ nodeOpsForBatch main base baseVer pr version b) : isNodeOp op = true := by
  unfold nodeOpsForBatch at h
  rcases List.mem_append.1 h with h | h
  · exact isNodeOp_of_mem_deleteOpsAux h
  · simp only [List.mem_singleton] at h
    subst h; exact isNodeOp_createOpFor _ _ _

theorem isRelOp_of_mem_relOpsForBatch {op : CypherOp} {b : List CodeChunk}
    {main base : Option String} (h : op ∈ relOpsForBatch main base b) : isRelOp op = true := by
  unfold relOpsForBatch at h
  simp only [List.mem_append] at h
  rcases h with (((h | h) | h) | h) | h
  · split at h
    · simp at h
    · split at h
      · split at h <;>
          (simp only [List.mem_singleton] at h; subst h; rfl)
      · simp only [List.mem_singleton] at h; subst h; rfl
  all_goals
    split at h
    · simp at h
    · split at h <;>
        (simp only [List.mem_singleton] at h; subst h; rfl)

/-- The node phase of the generated list: tombstone query plus per-batch
delete/create queries. -/
def nodePhasePart (chunks : List CodeChunk) (bs : Nat)
    (main base pr version baseVer : Option String)
    (deleted : Option (List DeletedRec)) : List CypherOp :=
  tombstoneOps chunks version base baseVer deleted ++
    (chunkBatches bs chunks).flatMap (nodeOpsForBatch main base baseVer pr version)

theorem generate_eq_phases (chunks : List CodeChunk) (bs : Nat)
    (main base pr version baseVer : Option String) (deleted : Option (List DeletedRec)) :
    generate_cypher_from_chunks chunks bs main base pr version baseVer deleted =
      nodePhasePart chunks bs main base pr version baseVer deleted ++
        (chunkBatches bs chunks).flatMap (relOpsForBatch main base) := by
  simp [generate_cypher_from_chunks, nodePhasePart, List.append_assoc]

/-- C9: the operation list returned by `generate_cypher_from_chunks` splits at
an index `k` such that everything before `k` is a tombstone-create,
node-delete or node-create query and everything from `k` on is a
relationship-create (CALL / IMPLEMENT / USE) query — every node-phase
operation appears before every edge-phase operation, so edge targets exist
before any edge is attempted. -/
theorem C9_node_phase_precedes_edge_phase (chunks : List CodeChunk) (bs : Nat)
    (main base pr version baseVer : Option String) (deleted : Option (List DeletedRec)) :
    ∃ k,
      (∀ op ∈ (generate_cypher_from_chunks chunks bs main base pr version baseVer
        deleted).take k, isNodeOp op = true) ∧
      (∀ op ∈ (generate_cypher_from_chunks chunks bs main base pr version baseVer
        deleted).drop k, isRelOp op = true) := by
  refine ⟨(nodePhasePart chunks bs main base pr version baseVer deleted).length, ?_, ?_⟩
  · intro op hop
    rw [generate_eq_phases, List.take_left] at hop
    rcases List.mem_append.1 hop with h | h
    · exact isNodeOp_of_mem_tombstoneOps h
    · rcases List.mem_flatMap.1 h with ⟨b, -, hb⟩
      exact isNodeOp_of_mem_nodeOpsForBatch hb
  · intro op hop
    rw [generate_eq_phases, List.drop_left] at hop
    rcases List.mem_flatMap.1 hop with ⟨b, -, hb⟩
    exact isRelOp_of_mem_relOpsForBatch hb

/-- Witness for C9 at a concrete input: one chunk whose method calls another
(no hypotheses to discharge; the split point is exhibited concretely). -/
theorem C9_witness :
    ∃ k,
      (∀ op ∈ (generate_cypher_from_chunks
        [{ class_name := "S", full_class_name := "S", file_path := "f", content := ""
           ast_hash := "h", implements := [], methods :=
             [{ name := "s", full_name := "s", body := "", ast_hash := "hm"
                method_calls := [⟨"t"⟩], used_types := [], field_access := []
                inheritance_info := [], endpoint := none, type := ChunkType.REGULAR
                project_id := "1", branch := "dev", handlesAnn := none, annots := []
                status := none }]
           project_id := "1", branch := "dev", used_types := []
           type := ChunkType.REGULAR, handlesAnn := none, annots := [], status := none }]
        100 none none none (some "v") none none).take k, isNodeOp op = true) ∧
      (∀ op ∈ (generate_cypher_from_chunks
        [{ class_name := "S", full_class_name := "S", file_path := "f", content := ""
           ast_hash := "h", implements := [], methods :=
             [{ name := "s", full_name := "s", body := "", ast_hash := "hm"
                method_calls := [⟨"t"⟩], used_types := [], field_access := []
                inheritance_info := [], endpoint := none, type := ChunkType.REGULAR
                project_id := "1", branch := "dev", handlesAnn := none, annots := []
                status := none }]
           project_id := "1", branch := "dev", used_types := []
           type := ChunkType.REGULAR, handlesAnn := none, annots := [], status := none }]
        100 none none none (some "v") none none).drop k, isRelOp op = true) :=
  C9_node_phase_precedes_edge_phase _ 100 none none none (some "v") none none

end SourceAtlas

namespace SourceAtlas

/-- Is the operation the unconditional (full-rebuild) node-creation query? -/
def isPlainCreate : CypherOp → Bool
  | .createNodesPlain _ => true
  | _ => false

theorem isPlainCreate_false_of_isRelOp {op : CypherOp} (h : isRelOp op = true) :
    isPlainCreate op = false := by
  cases op <;> first | rfl | (simp [isRelOp, isNodeOp] at h)

theorem mem_deleteOpsAux_shape {op : CypherOp} :
    ∀ {l : List CodeChunk} {cAcc mAcc : List DelRec}, op ∈ deleteOpsAux l cAcc mAcc →
      (∃ rs, op = CypherOp.deleteClassNodes rs) ∨ (∃ rs, op = CypherOp.deleteMethodNodes rs) := by
  intro l
  induction l with
  | nil => intro cAcc mAcc h; simp [deleteOpsAux] at h
  | cons c rest ih =>
    intro cAcc mAcc h
    unfold deleteOpsAux at h
    rcases List.mem_append.1 h with h' | h'
    · rcases List.mem_append.1 h' with h'' | h''
      · split at h''
        · simp at h''
        · simp only [List.mem_singleton] at h''
          exact Or.inl ⟨_, h''⟩
      · split at h''
        · simp at h''
        · simp only [List.mem_singleton] at h''
          exact Or.inr ⟨_, h''⟩
    · exact ih h'

theorem mem_tombstoneOps_shape {op : CypherOp} {chunks : List CodeChunk}
    {version base baseVer : Option String} {deleted : Option (List DeletedRec)}
    (h : op ∈ tombstoneOps chunks version base baseVer deleted) :
    ∃ ts, op = CypherOp.createTombstones ts := by
  unfold tombstoneOps at h
  rcases deleted with _ | ds
  · simp at h
  · by_cases hds : ds.isEmpty <;> simp [hds] at h
    exact ⟨_, h⟩

theorem createOpFor_shape {recs' : List NodeRec} {main base : Option String} {op : CypherOp}
    (h : createOpFor recs' main base = op) :
    (optTruthy main = true ∧ optTruthy base = true ∧
      op = CypherOp.createNodesBaseMain recs' (main.getD "") (base.getD "")) ∨
    (optTruthy main = true ∧ optTruthy base = false ∧
      op = CypherOp.createNodesMain recs' (main.getD "")) ∨
    (optTruthy main = false ∧ op = CypherOp.createNodesPlain recs') := by
  unfold createOpFor at h
  by_cases h1 : optTruthy main
  · by_cases h2 : optTruthy base
    · exact Or.inl ⟨h1, h2, by simp [h1, h2] at h; exact h.symm⟩
    · refine Or.inr (Or.inl ⟨h1, by simp [h2], ?_⟩)
      simp [h1, h2] at h; exact h.symm
  · refine Or.inr (Or.inr ⟨by simp [h1], ?_⟩)
    simp [h1] at h; exact h.symm

theorem callRelsBase_mem_relOpsForBatch {recs : List RelRec} {bb mb : String}
    {main base : Option String} {b : List CodeChunk}
    (h : CypherOp.callRelsBase recs bb mb ∈ relOpsForBatch main base b) :
    bb = base.getD "" ∧ mb = main.getD "" := by
  unfold relOpsForBatch at h
  simp only [List.mem_append] at h
  rcases h with (((h | h) | h) | h) | h
  · split at h
    · simp at h
    · split at h
      · split at h <;> simp only [List.mem_singleton] at h
        · obtain ⟨-, h1, h2⟩ := CypherOp.callRelsBase.inj h
          exact ⟨h1, h2⟩
        · exact absurd h (by simp)
      · exact absurd h (by simp)
  all_goals
    split at h
    · simp at h
    · split at h <;> (simp only [List.mem_singleton] at h; exact absurd h (by simp))

/-- C10: when `import_code_chunks` is called with `base_branch=None` it
behaves exactly as if called with the first chunk's branch as base, so
change detection and edge-target fallback compare against the current branch
itself; with no `main_branch` the generated node-creation queries are all
the unconditional full-rebuild ones, while with a configured (non-empty)
`main_branch` no unconditional create query is generated, and (for a
non-empty current branch) the hash-gated create and CALL-fallback queries
carry the current branch as their base parameter. -/
theorem C10_base_branch_default (g : Graph) (chunks : List CodeChunk) (bs : Nat)
    (main pr version baseVer : Option String) (deleted : Option (List DeletedRec))
    (c : CodeChunk) (rest : List CodeChunk) (hc : chunks = c :: rest) :
    doImportCodeChunks g chunks bs main none pr version baseVer deleted =
      doImportCodeChunks g chunks bs main (some c.branch) pr version baseVer deleted ∧
    (main = none →
      ∀ op ∈ generate_cypher_from_chunks chunks bs main (some c.branch) pr version baseVer
        deleted, isNodeOp op = true →
        (∃ recs, op = CypherOp.createNodesPlain recs) ∨
        (∃ rs, op = CypherOp.deleteClassNodes rs) ∨
        (∃ rs, op = CypherOp.deleteMethodNodes rs) ∨
        (∃ ts, op = CypherOp.createTombstones ts)) ∧
    (∀ m, main = some m → m ≠ "" →
      ∀ op ∈ generate_cypher_from_chunks chunks bs main (some c.branch) pr version baseVer
        deleted, isPlainCreate op = false) ∧
    (∀ m, main = some m → m ≠ "" → c.branch ≠ "" →
      (∀ recs mb bb, CypherOp.createNodesBaseMain recs mb bb ∈
          generate_cypher_from_chunks chunks bs main (some c.branch) pr version baseVer
            deleted → mb = m ∧ bb = c.branch) ∧
      (∀ recs bb mb, CypherOp.callRelsBase recs bb mb ∈
          generate_cypher_from_chunks chunks bs main (some c.branch) pr version baseVer
            deleted → bb = c.branch ∧ mb = m)) := by
  subst hc
  refine ⟨rfl, ?_, ?_, ?_⟩
  · -- no main branch: every node-phase query is unconditional-create / delete / tombstone
    intro hmain op hop hnode
    rw [generate_eq_phases] at hop
    rcases List.mem_append.1 hop with h | h
    · rcases List.mem_append.1 h with h' | h'
      · exact Or.inr (Or.inr (Or.inr (mem_tombstoneOps_shape h')))
      · rcases List.mem_flatMap.1 h' with ⟨b, -, hb⟩
        unfold nodeOpsForBatch at hb
        rcases List.mem_append.1 hb with hb' | hb'
        · exact Or.inr ((mem_deleteOpsAux_shape hb').imp (fun x => x) Or.inl)
        · simp only [List.mem_singleton] at hb'
          rcases createOpFor_shape hb'.symm with ⟨hm, -, -⟩ | ⟨hm, -, -⟩ | ⟨-, hop'⟩
          · rw [hmain] at hm; simp [optTruthy] at hm
          · rw [hmain] at hm; simp [optTruthy] at hm
          · exact Or.inl ⟨_, hop'⟩
    · rcases List.mem_flatMap.1 h with ⟨b, -, hb⟩
      have := isRelOp_of_mem_relOpsForBatch hb
      simp [isRelOp, hnode] at this
  · -- configured main branch: no unconditional create query anywhere
    intro m hm hmne op hop
    rw [generate_eq_phases] at hop
    rcases List.mem_append.1 hop with h | h
    · rcases List.mem_append.1 h with h' | h'
      · obtain ⟨ts, rfl⟩ := mem_tombstoneOps_shape h'
        rfl
      · rcases List.mem_flatMap.1 h' with ⟨b, -, hb⟩
        unfold nodeOpsForBatch at hb
        rcases List.mem_append.1 hb with hb' | hb'
        · rcases mem_deleteOpsAux_shape hb' with ⟨rs, rfl⟩ | ⟨rs, rfl⟩ <;> rfl
        · simp only [List.mem_singleton] at hb'
          rcases createOpFor_shape hb'.symm with ⟨-, -, hop'⟩ | ⟨-, -, hop'⟩ | ⟨hmf, -⟩
          · subst hop'; rfl
          · subst hop'; rfl
          · rw [hm] at hmf; simp [optTruthy, hmne] at hmf
    · rcases List.mem_flatMap.1 h with ⟨b, -, hb⟩
      exact isPlainCreate_false_of_isRelOp (isRelOp_of_mem_relOpsForBatch hb)
  · -- base parameter of the gated create / CALL queries is the current branch
    intro m hm hmne hbne
    constructor
    · intro recs mb bb hop
      rw [generate_eq_phases] at hop
      rcases List.mem_append.1 hop with h | h
      · rcases List.mem_append.1 h with h' | h'
        · obtain ⟨ts, hts⟩ := mem_tombstoneOps_shape h'
          exact absurd hts (by simp)
        · rcases List.mem_flatMap.1 h' with ⟨b, -, hb⟩
          unfold nodeOpsForBatch at hb
          rcases List.mem_append.1 hb with hb' | hb'
          · rcases mem_deleteOpsAux_shape hb' with ⟨rs, hrs⟩ | ⟨rs, hrs⟩ <;>
              exact absurd hrs (by simp)
          · simp only [List.mem_singleton] at hb'
            rcases createOpFor_shape hb'.symm with ⟨-, -, hop'⟩ | ⟨-, -, hop'⟩ | ⟨-, hop'⟩
            · obtain ⟨-, h1, h2⟩ := CypherOp.createNodesBaseMain.inj hop'.symm
              subst hm
              exact ⟨h1.symm, h2.symm⟩
            · exact absurd hop' (by simp)
            · exact absurd hop' (by simp)
      · rcases List.mem_flatMap.1 h with ⟨b, -, hb⟩
        have := isRelOp_of_mem_relOpsForBatch hb
        simp [isRelOp, isNodeOp] at this
    · intro recs bb mb hop
      rw [generate_eq_phases] at hop
      rcases List.mem_append.1 hop with h | h
      · rcases List.mem_append.1 h with h' | h'
        · obtain ⟨ts, hts⟩ := mem_tombstoneOps_shape h'
          exact absurd hts (by simp)
        · rcases List.mem_flatMap.1 h' with ⟨b, -, hb⟩
          unfold nodeOpsForBatch at hb
          rcases List.mem_append.1 hb with hb' | hb'
          · rcases mem_deleteOpsAux_shape hb' with ⟨rs, hrs⟩ | ⟨rs, hrs⟩ <;>
              exact absurd hrs (by simp)
          · simp only [List.mem_singleton] at hb'
            rcases createOpFor_shape hb'.symm with ⟨-, -, hop'⟩ | ⟨-, -, hop'⟩ | ⟨-, hop'⟩ <;>
              exact absurd hop' (by simp)
      · rcases List.mem_flatMap.1 h with ⟨b, -, hb⟩
        obtain ⟨h1, h2⟩ := callRelsBase_mem_relOpsForBatch hb
        subst hm
        exact ⟨h1, h2⟩

end SourceAtlas

namespace SourceAtlas

/-- Fixture: a method fact with given full name, hash and plain CALL targets. -/
def mkMethod (fname h : String) (calls : List String) : Method :=
  { name := fname, full_name := fname, body := "", ast_hash := h
    method_calls := calls.map MethodCall.mk
    used_types := [], field_access := [], inheritance_info := [], endpoint := none
    type := ChunkType.REGULAR, project_id := "1", branch := "dev", handlesAnn := none
    annots := [], status := none }

/-- Fixture: a class fact on project 1, branch `dev`. -/
def mkChunk (cls h : String) (ms : List Method) : CodeChunk :=
  { class_name := cls, full_class_name := cls, file_path := "f", content := "", ast_hash := h
    implements := [], methods := ms, project_id := "1", branch := "dev", used_types := []
    type := ChunkType.REGULAR, handlesAnn := none, annots := [], status := none }

/-- Fixture: a persisted node on project 1. -/
def mkNode (i : Nat) (lbl cls : String) (m : Option String) (h br : String) : DbNode :=
  { nid := i, label := lbl, name := cls, file_path := "f", class_name := cls
    method_name := m, content := "", ast_hash := h, project_id := "1", branch := br
    version := "v1", status := "ACTIVE", base_branch := none, base_version := none
    pull_request_id := none, endpoint := none }

/-- Fixture: the empty store. -/
def gEmpty : Graph := { nodes := [], edges := [], mappings := [], nextId := 0 }

/-- Witness for C10 at a concrete input (first conjunct: omitting the base
branch equals passing the first chunk's branch `dev`). -/
theorem C10_witness :
    doImportCodeChunks gEmpty [mkChunk "A" "h" []] 100 (some "main") none none (some "v")
        none none =
      doImportCodeChunks gEmpty [mkChunk "A" "h" []] 100 (some "main")
        (some (CodeChunk.branch (mkChunk "A" "h" []))) none (some "v") none none :=
  (C10_base_branch_default gEmpty [mkChunk "A" "h" []] 100 (some "main") none (some "v")
    none none (mkChunk "A" "h" []) [] rfl).1

end SourceAtlas

namespace SourceAtlas

/-- Fixture for C2: the comparison branches `base` and `main` each hold a
non-PR class-level node `X` with hash `h1`; the current branch `dev` is empty. -/
def gTwoBranch : Graph :=
  { nodes := [mkNode 0 "ClassNode" "X" none "h1" "base",
              mkNode 1 "ClassNode" "X" none "h1" "main"]
    edges := [], mappings := [], nextId := 2 }

/-- C2 counterexample: the class-level fact `X` has the *same* ASTHash `h1`
as the non-PR node at its identity key in the comparison branch (`base`, with
both branches configured), yet the generated node phase still creates a node
for it in the current branch — because the creation query's `OPTIONAL MATCH`
puts `method_name: null` in its map pattern, which matches no node, so the
comparison lookup never finds class-level nodes. -/
theorem C2_counterexample :
    ((doImportChangedChunkNodesOnly gTwoBranch [mkChunk "X" "h1" []] (some "main")
        (some "base") 100 none (some "v") (some "bv") none).nodes.filter
      (fun n => n.branch == "dev" && n.class_name == "X")).length = 1 := by
  decide

/-- C2 amended: hash-gated creation holds for *method-level* facts: if the
comparison branch (`base` in the both-branches query, `main` in the
main-only query) contains exactly one node at the fact's
`(class_name, method_name, project)` key and its ASTHash equals the fact's,
then the creation query produces zero rows for that fact, so no node is
created for it. -/
theorem C2_amended_hash_gated (g : Graph) (main base : String) (r : NodeRec) (n : DbNode) :
    (cmpMatches g base r = [n] → n.ast_hash = r.ast_hash →
      newCountBaseMain g main base r = 0) ∧
    (cmpMatches g main r = [n] → n.ast_hash = r.ast_hash →
      newCountMain g main r = 0) := by
  constructor
  · intro h1 h2
    unfold newCountBaseMain
    rw [h1]
    simp [optRows, gateBaseMain, h2, List.countP_eq_zero]
  · intro h1 h2
    unfold newCountMain
    rw [h1]
    simp [optRows, gateMain, h2, List.countP_eq_zero]

/-- Fixture for the C2 witness: one method-level node in the base branch. -/
def gBaseMethod : Graph :=
  { nodes := [mkNode 0 "MethodNode" "X" (some "m") "h1" "base"]
    edges := [], mappings := [], nextId := 1 }

/-- Witness for C2's amended theorem at a concrete input. -/
theorem C2_witness :
    newCountBaseMain gBaseMethod "main" "base"
      (methodNodeRec (some "main") (some "base") (some "bv") none (some "v")
        (mkChunk "X" "h1" [mkMethod "m" "h1" []]) (mkMethod "m" "h1" [])) = 0 :=
  (C2_amended_hash_gated gBaseMethod "main" "base"
    (methodNodeRec (some "main") (some "base") (some "bv") none (some "v")
      (mkChunk "X" "h1" [mkMethod "m" "h1" []]) (mkMethod "m" "h1" []))
    (mkNode 0 "MethodNode" "X" (some "m") "h1" "base")).1 (by decide) (by decide)

end SourceAtlas

namespace SourceAtlas

theorem mem_mergeEdge {e x : DbEdge} {es : List DbEdge} :
    e ∈ mergeEdge es x ↔ e ∈ es ∨ e = x := by
  unfold mergeEdge
  split
  · rename_i hx
    constructor
    · exact Or.inl
    · rintro (h | rfl)
      · exact h
      · exact hx
  · simp

theorem mem_mergeEdges {e : DbEdge} {new : List DbEdge} :
    ∀ {es : List DbEdge}, e ∈ mergeEdges es new ↔ e ∈ es ∨ e ∈ new := by
  induction new with
  | nil => intro es; simp [mergeEdges]
  | cons x xs ih =>
    intro es
    show e ∈ mergeEdges (mergeEdge es x) xs ↔ _
    rw [ih, mem_mergeEdge]
    simp [or_assoc]

theorem some_mem_optRows {x : DbNode} {l : List DbNode} : some x ∈ optRows l ↔ x ∈ l := by
  cases l <;> simp [optRows]

theorem none_mem_optRows {l : List DbNode} : none ∈ optRows l ↔ l = [] := by
  cases l <;> simp [optRows]

/-- Membership in the COALESCE rows: the base matches win when any exist,
otherwise the main matches are used — first configured branch with a match
wins, later branches are never consulted. -/
theorem mem_coalesceRows {x : DbNode} {a b : List DbNode} :
    x ∈ coalesceRows a b ↔ x ∈ (if a.isEmpty then b else a) := by
  unfold coalesceRows
  rw [List.mem_filterMap]
  constructor
  · rintro ⟨p, hp, hf⟩
    rw [List.mem_flatMap] at hp
    obtain ⟨b', hb', hm⟩ := hp
    rw [List.mem_map] at hm
    obtain ⟨m, hm', rfl⟩ := hm
    cases b' with
    | some y =>
      simp only [Option.some.injEq] at hf
      have hy : y ∈ a := some_mem_optRows.1 hb'
      have hne : ¬ a.isEmpty := by
        cases a
        · simp at hy
        · simp
      rw [if_neg hne]
      rw [← hf]
      exact hy
    | none =>
      have hae : a = [] := none_mem_optRows.1 hb'
      subst hae
      simp only [List.isEmpty_nil, if_true]
      have : m = some x := hf
      exact some_mem_optRows.1 (this ▸ hm')
  · intro hx
    by_cases ha : a.isEmpty
    · rw [if_pos ha] at hx
      have hae : a = [] := by
        cases a
        · rfl
        · simp at ha
      subst hae
      refine ⟨(none, some x), ?_, rfl⟩
      rw [List.mem_flatMap]
      refine ⟨none, by simp [optRows], ?_⟩
      rw [List.mem_map]
      exact ⟨some x, some_mem_optRows.2 hx, rfl⟩
    · rw [if_neg ha] at hx
      obtain ⟨m, hm⟩ : ∃ m, m ∈ optRows b := by
        cases b with
        | nil => exact ⟨none, by simp [optRows]⟩
        | cons y ys => exact ⟨some y, by simp [optRows]⟩
      refine ⟨(some x, m), ?_, rfl⟩
      rw [List.mem_flatMap]
      refine ⟨some x, some_mem_optRows.2 hx, ?_⟩
      rw [List.mem_map]
      exact ⟨m, hm, rfl⟩

end SourceAtlas

namespace SourceAtlas

/-- Fixture for C3: source `S.s` and target `T.t` both live in the current
branch `dev`; the comparison branches `b` (base) and `m` (main) are empty. -/
def gCallCur : Graph :=
  { nodes := [mkNode 0 "MethodNode" "S" (some "s") "h" "dev",
              mkNode 1 "MethodNode" "T" (some "t") "h" "dev"]
    edges := [], mappings := [], nextId := 2 }

/-- C3 counterexample: importing `S.s` (which calls `t`) with
`main_branch="m"` and `base_branch="b"` creates *no* CALL edge although the
target `T.t` exists in the current branch — the generated CALL query only
tries `base` then `main` for the target and never the current branch, so the
claimed current-branch-first resolution does not hold. -/
theorem C3_counterexample :
    (doImportCodeChunksSimple gCallCur [mkChunk "S" "hs" [mkMethod "s" "hsm" ["t"]]] 100
      (some "m") (some "b") none (some "v") none none).edges = [] := by
  decide

/-- C3 amended: in the fallback queries the CALL and USE *sources* are
matched in the current branch (`rel.branch`), while the IMPLEMENT *source*
is itself resolved base-then-main; every fallback *target* is resolved by
trying the base branch first and then the main branch — first branch with a
match wins — and the current branch is never consulted for targets (it
participates only when it happens to equal base or main, as with the
`import_code_chunks` default).  Stated as an exact characterization of the
edges present after applying each single-row fallback query. -/
theorem C3_amended_fallback_order (g : Graph) (r : RelRec) (base main : String)
    (bo : Option String) (e : DbEdge) :
    (e ∈ (applyOp g (CypherOp.callRelsBase [r] base main)).edges ↔
      e ∈ g.edges ∨ ∃ s ∈ callSources g r,
        ∃ t ∈ (if (callTargets g base r).isEmpty then callTargets g main r
               else callTargets g base r), e = DbEdge.mk s.nid t.nid "CALL") ∧
    (e ∈ (applyOp g (CypherOp.useClassFallback [r] bo main)).edges ↔
      e ∈ g.edges ∨ ∃ s ∈ classEndMatches g (some r.branch) r.source_class r.project_id,
        ∃ t ∈ (if (classEndMatches g bo r.target_class r.project_id).isEmpty
               then classEndMatches g (some main) r.target_class r.project_id
               else classEndMatches g bo r.target_class r.project_id),
          e = DbEdge.mk s.nid t.nid "USE") ∧
    (e ∈ (applyOp g (CypherOp.implClassFallback [r] bo main)).edges ↔
      e ∈ g.edges ∨
        ∃ s ∈ (if (classEndMatches g bo r.source_class r.project_id).isEmpty
               then classEndMatches g (some main) r.source_class r.project_id
               else classEndMatches g bo r.source_class r.project_id),
        ∃ t ∈ (if (classEndMatches g bo r.target_class r.project_id).isEmpty
               then classEndMatches g (some main) r.target_class r.project_id
               else classEndMatches g bo r.target_class r.project_id),
          e = DbEdge.mk s.nid t.nid "IMPLEMENT") := by
  refine ⟨?_, ?_, ?_⟩
  · show e ∈ mergeEdges g.edges ([r].flatMap (callPairsBase g base main)) ↔ _
    rw [mem_mergeEdges]
    simp only [List.flatMap_cons, List.flatMap_nil, List.append_nil]
    unfold callPairsBase
    simp only [List.mem_flatMap, List.mem_map]
    constructor
    · rintro (h | ⟨s, hs, t, ht, rfl⟩)
      · exact Or.inl h
      · exact Or.inr ⟨s, hs, t, mem_coalesceRows.1 ht, rfl⟩
    · rintro (h | ⟨s, hs, t, ht, rfl⟩)
      · exact Or.inl h
      · exact Or.inr ⟨s, hs, t, mem_coalesceRows.2 ht, rfl⟩
  · show e ∈ mergeEdges g.edges ([r].flatMap (useClassPairsFallback g bo main)) ↔ _
    rw [mem_mergeEdges]
    simp only [List.flatMap_cons, List.flatMap_nil, List.append_nil]
    unfold useClassPairsFallback
    simp only [List.mem_flatMap, List.mem_map]
    constructor
    · rintro (h | ⟨s, hs, t, ht, rfl⟩)
      · exact Or.inl h
      · exact Or.inr ⟨s, hs, t, mem_coalesceRows.1 ht, rfl⟩
    · rintro (h | ⟨s, hs, t, ht, rfl⟩)
      · exact Or.inl h
      · exact Or.inr ⟨s, hs, t, mem_coalesceRows.2 ht, rfl⟩
  · show e ∈ mergeEdges g.edges ([r].flatMap (implClassPairsFallback g bo main)) ↔ _
    rw [mem_mergeEdges]
    simp only [List.flatMap_cons, List.flatMap_nil, List.append_nil]
    unfold implClassPairsFallback
    simp only [List.mem_flatMap, List.mem_map]
    constructor
    · rintro (h | ⟨s, hs, t, ht, rfl⟩)
      · exact Or.inl h
      · exact Or.inr ⟨s, mem_coalesceRows.1 hs, t, mem_coalesceRows.1 ht, rfl⟩
    · rintro (h | ⟨s, hs, t, ht, rfl⟩)
      · exact Or.inl h
      · exact Or.inr ⟨s, mem_coalesceRows.2 hs, t, mem_coalesceRows.2 ht, rfl⟩

/-- Fixture for the C3 witness: source in `dev`, target only in base `b`. -/
def gCallBase : Graph :=
  { nodes := [mkNode 0 "MethodNode" "S" (some "s") "h" "dev",
              mkNode 1 "MethodNode" "T" (some "t") "h" "b"]
    edges := [], mappings := [], nextId := 2 }

/-- Witness for C3's amended theorem at a concrete input: with the target in
the base branch, the CALL edge to the base node is created. -/
theorem C3_witness :
    DbEdge.mk 0 1 "CALL" ∈ (applyOp gCallBase (CypherOp.callRelsBase
      [{ source_class := some "S", source_method := some "s", target_class := none
         target_method := some "t", project_id := "1", branch := "dev" }] "b" "m")).edges :=
  (C3_amended_fallback_order gCallBase
    { source_class := some "S", source_method := some "s", target_class := none
      target_method := some "t", project_id := "1", branch := "dev" } "b" "m" none
    (DbEdge.mk 0 1 "CALL")).1.mpr
    (Or.inr ⟨mkNode 0 "MethodNode" "S" (some "s") "h" "dev", by decide,
      mkNode 1 "MethodNode" "T" (some "t") "h" "b", by decide, by decide⟩)

end SourceAtlas

namespace SourceAtlas

/-- Fixture for C5: a CALL edge from changed `C.c` to unchanged `U.u`
(the *changed* node is the source). -/
def gChangedSource : Graph :=
  { nodes := [mkNode 0 "MethodNode" "C" (some "c") "h" "dev",
              mkNode 1 "MethodNode" "U" (some "u") "h" "dev"]
    edges := [DbEdge.mk 0 1 "CALL"], mappings := [], nextId := 2 }

/-- C5 counterexample: the edge `C.c --CALL--> U.u` has exactly one endpoint
(`C.c`, the source) in the changed set, yet `save_changed_nodes_relationships`
records nothing — the query only matches the `(unchanged)-[r]->(changed)`
orientation, so changed-to-unchanged boundary edges are not saved. -/
theorem C5_counterexample :
    save_changed_nodes_relationships gChangedSource "1" "dev"
      [mkChunk "C" "h" [mkMethod "c" "h" []]] = [] := by
  decide

/-- C5 amended: `save_changed_nodes_relationships` records exactly the edges
*directed from* a node whose key is not in the changed set *to* a node whose
key is in the changed set (both endpoints non-PR nodes of the partition), as
business-key tuples — never internal ids; the opposite orientation is not
recorded. -/
theorem C5_amended_save_characterization (g : Graph) (pid br : String)
    (chunks : List CodeChunk) (t : SavedRel) :
    t ∈ save_changed_nodes_relationships g pid br chunks ↔
      ∃ e ∈ g.edges, ∃ u ∈ g.nodes, ∃ c ∈ g.nodes,
        u.nid = e.src ∧ c.nid = e.tgt ∧
        u.project_id = pid ∧ u.branch = br ∧ u.pull_request_id = none ∧
        c.project_id = pid ∧ c.branch = br ∧ c.pull_request_id = none ∧
        nodeKey c ∈ changedNodeKeys chunks ∧ nodeKey u ∉ changedNodeKeys chunks ∧
        t = { unchanged_class := u.class_name, unchanged_method := u.method_name
              rel_type := e.typ, changed_class := c.class_name
              changed_method := c.method_name } := by
  unfold save_changed_nodes_relationships
  simp only [List.mem_flatMap, List.mem_filterMap, List.mem_filter]
  constructor
  · rintro ⟨e, he, u, ⟨hu, hucond⟩, c, ⟨hc, hccond⟩, hif⟩
    simp only [Bool.and_eq_true, beq_iff_eq] at hucond hccond
    obtain ⟨⟨⟨hun, hup⟩, hub⟩, hupr⟩ := hucond
    obtain ⟨⟨⟨hcn, hcp⟩, hcb⟩, hcpr⟩ := hccond
    split at hif
    · rename_i hcond
      simp only [Bool.and_eq_true, Bool.not_eq_true'] at hcond
      simp only [Option.some.injEq] at hif
      refine ⟨e, he, u, hu, c, hc, hun, hcn, hup, hub, hupr, hcp, hcb, hcpr, ?_, ?_, hif.symm⟩
      · have := hcond.1
        simpa using this
      · have := hcond.2
        simp at this
        exact this
    · simp at hif
  · rintro ⟨e, he, u, hu, c, hc, hun, hcn, hup, hub, hupr, hcp, hcb, hcpr, hmem, hnmem, rfl⟩
    refine ⟨e, he, u, ⟨hu, ?_⟩, c, ⟨hc, ?_⟩, ?_⟩
    · simp [hun, hup, hub, hupr]
    · simp [hcn, hcp, hcb, hcpr]
    · rw [if_pos]
      simp only [Bool.and_eq_true, Bool.not_eq_true']
      constructor
      · simpa using hmem
      · simpa using hnmem

/-- Fixture for the C5 witness: the saved orientation, unchanged `U.u`
calling changed `C.c`. -/
def gUnchangedSource : Graph :=
  { nodes := [mkNode 0 "MethodNode" "U" (some "u") "h" "dev",
              mkNode 1 "MethodNode" "C" (some "c") "h" "dev"]
    edges := [DbEdge.mk 0 1 "CALL"], mappings := [], nextId := 2 }

/-- Witness for C5's amended theorem at a concrete input: the
unchanged-to-changed boundary edge is recorded as a business-key tuple. -/
theorem C5_witness :
    ({ unchanged_class := "U", unchanged_method := some "u", rel_type := "CALL"
       changed_class := "C", changed_method := some "c" } : SavedRel) ∈
      save_changed_nodes_relationships gUnchangedSource "1" "dev"
        [mkChunk "C" "h" [mkMethod "c" "h" []]] :=
  (C5_amended_save_characterization gUnchangedSource "1" "dev"
    [mkChunk "C" "h" [mkMethod "c" "h" []]] _).mpr
    ⟨DbEdge.mk 0 1 "CALL", by decide,
     mkNode 0 "MethodNode" "U" (some "u") "h" "dev", by decide,
     mkNode 1 "MethodNode" "C" (some "c") "h" "dev", by decide,
     rfl, rfl, rfl, rfl, rfl, rfl, rfl, rfl, by decide, by decide, rfl⟩

end SourceAtlas

namespace SourceAtlas

/-- Sequential application of committed operations (for the no-rollback
statement). -/
def applyFuns (fs : List (Graph → Graph)) (g : Graph) : Graph :=
  fs.foldl (fun g f => f g) g

theorem attemptLoop_touches_ne {oracle : Nat → Nat → Bool} {i j : Nat} (hij : j ≠ i) :
    ∀ k r, touchesOp (attemptLoop oracle i k r).1 j = false := by
  intro k r
  induction r generalizing k with
  | zero => rfl
  | succ r ih =>
    unfold attemptLoop
    by_cases h : oracle i k
    · simp [h, touchesOp, hij, Ne.symm hij]
    · simp only [h, if_false, Bool.false_eq_true]
      have := ih (k + 1)
      simp [touchesOp, hij, Ne.symm hij] at this ⊢
      exact this

theorem attemptLoop_count_le {oracle : Nat → Nat → Bool} {i : Nat} :
    ∀ k r j, countAttempts (attemptLoop oracle i k r).1 j ≤ r := by
  intro k r
  induction r generalizing k with
  | zero => intro j; simp [attemptLoop, countAttempts]
  | succ r ih =>
    intro j
    unfold attemptLoop
    by_cases h : oracle i k
    · simp only [h, if_true]
      simp [countAttempts, List.countP_cons]
      split <;> omega
    · simp only [h, if_false, Bool.false_eq_true]
      simp [countAttempts, List.countP_cons] at ih ⊢
      have := ih (k + 1) j
      split <;> omega

theorem attemptLoop_no_sleep {oracle : Nat → Nat → Bool} {i : Nat} :
    ∀ k r, ExecEvent.sleepDelay ∉ (attemptLoop oracle i k r).1 := by
  intro k r
  induction r generalizing k with
  | zero => simp [attemptLoop]
  | succ r ih =>
    unfold attemptLoop
    by_cases h : oracle i k
    · simp [h]
    · simp only [h, if_false, Bool.false_eq_true]
      simp
      exact ih (k + 1)

theorem attemptLoop_consumed {oracle : Nat → Nat → Bool} {i : Nat} :
    ∀ k r (rest : List ExecEvent), consumedImmediately rest = true →
      consumedImmediately ((attemptLoop oracle i k r).1 ++ rest) = true := by
  intro k r
  induction r generalizing k with
  | zero => intro rest h; simpa [attemptLoop]
  | succ r ih =>
    intro rest h
    unfold attemptLoop
    by_cases ho : oracle i k
    · simp only [ho, if_true]
      simp [consumedImmediately]
      exact h
    · simp only [ho, if_false, Bool.false_eq_true]
      simp only [List.cons_append]
      show consumedImmediately (ExecEvent.runAttempt i k false ::
        ((attemptLoop oracle i (k + 1) r).1 ++ rest)) = true
      exact ih (k + 1) rest h

theorem attemptLoop_touches_self_of_failed {oracle : Nat → Nat → Bool} {i : Nat}
    {r : Nat} (hr : r ≠ 0) (hfail : (attemptLoop oracle i 0 r).2 = false) :
    touchesOp (attemptLoop oracle i 0 r).1 i = true := by
  rcases Nat.exists_eq_succ_of_ne_zero hr with ⟨r', rfl⟩
  unfold attemptLoop at hfail ⊢
  by_cases h : oracle i 0
  · simp [h] at hfail
  · simp [h, touchesOp]

end SourceAtlas

namespace SourceAtlas

theorem touchesOp_append {a b : List ExecEvent} {j : Nat} :
    touchesOp (a ++ b) j = (touchesOp a j || touchesOp b j) := by
  simp [touchesOp, List.any_append]

theorem countAttempts_append {a b : List ExecEvent} {j : Nat} :
    countAttempts (a ++ b) j = countAttempts a j + countAttempts b j := by
  simp [countAttempts, List.countP_append]

theorem countAttempts_eq_zero_of_not_touches {a : List ExecEvent} {j : Nat}
    (h : touchesOp a j = false) : countAttempts a j = 0 := by
  unfold countAttempts
  unfold touchesOp at h
  rw [List.countP_eq_zero]
  intro e he
  have := (List.any_eq_false.1 (by simpa using h)) e he
  cases e <;> simp_all

theorem execBatchAux_zero (oracle : Nat → Nat → Bool) :
    ∀ (ops : List (Graph → Graph)) (start : Nat) (g : Graph),
      execBatchAux oracle 0 start ops g = (g, [], none) := by
  intro ops
  induction ops with
  | nil => intro start g; rfl
  | cons f rest ih =>
    intro start g
    unfold execBatchAux
    rw [if_pos rfl]
    exact ih _ _

theorem execBatchAux_spec (oracle : Nat → Nat → Bool) (mr : Nat) :
    ∀ (ops : List (Graph → Graph)) (start : Nat) (g : Graph),
      (∀ i, countAttempts (execBatchAux oracle mr start ops g).2.1 i ≤ mr) ∧
      consumedImmediately (execBatchAux oracle mr start ops g).2.1 = true ∧
      ExecEvent.sleepDelay ∉ (execBatchAux oracle mr start ops g).2.1 ∧
      (∀ j, j < start → touchesOp (execBatchAux oracle mr start ops g).2.1 j = false) ∧
      (∀ i, (execBatchAux oracle mr start ops g).2.2 = some i →
        start ≤ i ∧ touchesOp (execBatchAux oracle mr start ops g).2.1 i = true ∧
        (∀ j, i < j → touchesOp (execBatchAux oracle mr start ops g).2.1 j = false) ∧
        (execBatchAux oracle mr start ops g).1 = applyFuns (ops.take (i - start)) g) := by
  intro ops
  induction ops with
  | nil =>
    intro start g
    refine ⟨?_, rfl, ?_, ?_, ?_⟩
    · intro i; simp [execBatchAux, countAttempts]
    · simp [execBatchAux]
    · intro j _; rfl
    · intro i h; simp [execBatchAux] at h
  | cons f rest ih =>
    intro start g
    by_cases hmr : mr = 0
    · subst hmr
      rw [execBatchAux_zero]
      refine ⟨?_, rfl, ?_, ?_, ?_⟩
      · intro i; simp [countAttempts]
      · simp
      · intro j _; rfl
      · intro i h; simp at h
    · have hstep : execBatchAux oracle mr start (f :: rest) g =
          (if (attemptLoop oracle start 0 mr).2 then
            ((execBatchAux oracle mr (start + 1) rest (f g)).1,
             (attemptLoop oracle start 0 mr).1 ++
               (execBatchAux oracle mr (start + 1) rest (f g)).2.1,
             (execBatchAux oracle mr (start + 1) rest (f g)).2.2)
          else (g, (attemptLoop oracle start 0 mr).1, some start)) := by
        conv_lhs => unfold execBatchAux
        rw [if_neg hmr]
      by_cases ha : (attemptLoop oracle start 0 mr).2
      · rw [hstep, if_pos ha]
        obtain ⟨hc1, hc2, hc3, hc4, hc5⟩ := ih (start + 1) (f g)
        refine ⟨?_, ?_, ?_, ?_, ?_⟩
        · intro i
          rw [countAttempts_append]
          by_cases hi : i = start
          · rw [hi]
            have h0 : countAttempts (execBatchAux oracle mr (start + 1) rest (f g)).2.1
                start = 0 :=
              countAttempts_eq_zero_of_not_touches (hc4 start (by omega))
            have := @attemptLoop_count_le oracle start 0 mr start
            omega
          · have h0 : countAttempts (attemptLoop oracle start 0 mr).1 i = 0 :=
              countAttempts_eq_zero_of_not_touches (attemptLoop_touches_ne hi 0 mr)
            have := hc1 i
            omega
        · exact attemptLoop_consumed 0 mr _ hc2
        · intro hmem
          rcases List.mem_append.1 hmem with h | h
          · exact attemptLoop_no_sleep 0 mr h
          · exact hc3 h
        · intro j hj
          rw [touchesOp_append]
          rw [attemptLoop_touches_ne (by omega) 0 mr, hc4 j (by omega)]
          rfl
        · intro i hi
          obtain ⟨h1, h2, h3, h4⟩ := hc5 i hi
          refine ⟨by omega, ?_, ?_, ?_⟩
          · rw [touchesOp_append, h2]
            simp
          · intro j hj
            rw [touchesOp_append]
            rw [attemptLoop_touches_ne (by omega) 0 mr, h3 j hj]
            rfl
          · rw [h4]
            have htake : (f :: rest).take (i - start) = f :: rest.take (i - (start + 1)) := by
              have : i - start = (i - (start + 1)) + 1 := by omega
              rw [this]
              rfl
            rw [htake]
            rfl
      · rw [hstep, if_neg ha]
        refine ⟨?_, ?_, ?_, ?_, ?_⟩
        · intro i
          by_cases hi : i = start
          · rw [hi]
            exact attemptLoop_count_le 0 mr start
          · rw [countAttempts_eq_zero_of_not_touches (attemptLoop_touches_ne hi 0 mr)]
            omega
        · have := @attemptLoop_consumed oracle start 0 mr [] rfl
          simpa using this
        · exact attemptLoop_no_sleep 0 mr
        · intro j hj
          exact attemptLoop_touches_ne (by omega) 0 mr
        · intro i hi
          simp only [Option.some.injEq] at hi
          subst hi
          refine ⟨le_refl _, ?_, ?_, ?_⟩
          · exact attemptLoop_touches_self_of_failed hmr (by simpa using ha)
          · intro j hj
            exact attemptLoop_touches_ne (by omega) 0 mr
          · simp [applyFuns]

end SourceAtlas

namespace SourceAtlas

/-- C8 counterexample: a concrete run in which operation 0 fails once and
succeeds on the second attempt.  The trace shows the two run attempts
back-to-back with *no* delay event between them — the retry loop of
`execute_queries_batch` contains no pause, contradicting the claimed "short
fixed delay between attempts". -/
theorem C8_counterexample :
    (execute_queries_batch (fun _ k => decide (1 ≤ k)) 3 [fun g => g] gEmpty).2.1 =
      [ExecEvent.runAttempt 0 0 false, ExecEvent.runAttempt 0 1 true,
       ExecEvent.consumeRes 0 1] ∧
    ExecEvent.sleepDelay ∉
      (execute_queries_batch (fun _ k => decide (1 ≤ k)) 3 [fun g => g] gEmpty).2.1 := by
  constructor
  · rfl
  · decide

/-- C8 amended: `execute_queries_batch` attempts each operation at most
`max_retries` (default 3) times with *no* delay between attempts (retries
are immediate); every successful run is consumed immediately; and when an
operation exhausts its retries the exception is raised with its index: no
later operation is even attempted, while the operations already applied are
kept — the final state is exactly the fold of the successfully committed
prefix, with no rollback. -/
theorem C8_amended_retry_and_abort (oracle : Nat → Nat → Bool) (mr : Nat)
    (ops : List (Graph → Graph)) (g : Graph) :
    (∀ i, countAttempts (execute_queries_batch oracle mr ops g).2.1 i ≤ mr) ∧
    consumedImmediately (execute_queries_batch oracle mr ops g).2.1 = true ∧
    ExecEvent.sleepDelay ∉ (execute_queries_batch oracle mr ops g).2.1 ∧
    maxRetriesDefault = 3 ∧
    (∀ i, (execute_queries_batch oracle mr ops g).2.2 = some i →
      touchesOp (execute_queries_batch oracle mr ops g).2.1 i = true ∧
      (∀ j, i < j → touchesOp (execute_queries_batch oracle mr ops g).2.1 j = false) ∧
      (execute_queries_batch oracle mr ops g).1 = applyFuns (ops.take i) g) := by
  obtain ⟨h1, h2, h3, -, h5⟩ := execBatchAux_spec oracle mr ops 0 g
  refine ⟨h1, h2, h3, rfl, ?_⟩
  intro i hi
  obtain ⟨-, hb, hcx, hd⟩ := h5 i hi
  exact ⟨hb, hcx, by simpa using hd⟩

/-- Witness for C8's amended theorem at a concrete input: one always-failing
operation exhausts its three retries; the raised index is 0 and the state is
untouched. -/
theorem C8_witness :
    touchesOp (execute_queries_batch (fun _ _ => false) 3 [fun g => g] gEmpty).2.1 0 = true ∧
    (∀ j, 0 < j →
      touchesOp (execute_queries_batch (fun _ _ => false) 3 [fun g => g] gEmpty).2.1 j =
        false) ∧
    (execute_queries_batch (fun _ _ => false) 3 [fun g => g] gEmpty).1 =
      applyFuns (([fun g => g] : List (Graph → Graph)).take 0) gEmpty :=
  (C8_amended_retry_and_abort (fun _ _ => false) 3 [fun g => g] gEmpty).2.2.2.2 0 rfl

end SourceAtlas


namespace SourceAtlas

theorem nodes_applyOp_rel (g : Graph) (op : CypherOp) (h : isNodeOp op = false) :
    (applyOp g op).nodes = g.nodes := by
  cases op <;> first
    | rfl
    | (simp [isNodeOp] at h)

theorem edges_foldl_appendCreated :
    ∀ (l : List (NodeRec × Nat)) (g : Graph), (l.foldl appendCreated g).edges = g.edges := by
  intro l
  induction l with
  | nil => intro g; rfl
  | cons rk rest ih => intro g; exact ih _

/-- The nodes a node-creation query appends, with sequential fresh ids. -/
def createdNodes : Nat → List (NodeRec × Nat) → List DbNode
  | _, [] => []
  | start, rk :: rest =>
    (List.range rk.2).map (fun j => nodeOfRec rk.1 (start + j)) ++
      createdNodes (start + rk.2) rest

theorem nodes_foldl_appendCreated :
    ∀ (l : List (NodeRec × Nat)) (g : Graph),
      (l.foldl appendCreated g).nodes = g.nodes ++ createdNodes g.nextId l := by
  intro l
  induction l with
  | nil => intro g; simp [createdNodes]
  | cons rk rest ih =>
    intro g
    show (rest.foldl appendCreated (appendCreated g rk)).nodes = _
    rw [ih]
    simp [appendCreated, createdNodes, List.append_assoc]

theorem mem_createdNodes {n : DbNode} :
    ∀ {s : Nat} {l : List (NodeRec × Nat)}, n ∈ createdNodes s l →
      ∃ rk ∈ l, ∃ i, n = nodeOfRec rk.1 i := by
  intro s l
  induction l generalizing s with
  | nil => intro h; simp [createdNodes] at h
  | cons rk rest ih =>
    intro h
    unfold createdNodes at h
    rcases List.mem_append.1 h with h' | h'
    · rcases List.mem_map.1 h' with ⟨j, -, rfl⟩
      exact ⟨rk, List.mem_cons_self _ _, _, rfl⟩
    · obtain ⟨rk', hrk', i, rfl⟩ := ih h'
      exact ⟨rk', List.mem_cons_of_mem _ hrk', i, rfl⟩

theorem createdNodes_length_ones :
    ∀ (recs : List NodeRec) (s : Nat),
      (createdNodes s (recs.map (fun r => (r, 1)))).length = recs.length := by
  intro recs
  induction recs with
  | nil => intro s; rfl
  | cons r rest ih =>
    intro s
    simp [createdNodes, ih]
    omega

theorem nodup_mergeEdges : ∀ {new es : List DbEdge}, es.Nodup → (mergeEdges es new).Nodup := by
  intro new
  induction new with
  | nil => intro es h; exact h
  | cons x xs ih =>
    intro es h
    have h' : (mergeEdge es x).Nodup := by
      unfold mergeEdge
      split
      · exact h
      · rename_i hx
        simp only [List.nodup_append, List.nodup_cons, List.not_mem_nil, not_false_iff,
          List.nodup_nil, and_true, true_and]
        refine ⟨h, ?_⟩
        intro a ha hax
        simp only [List.mem_singleton] at hax
        subst hax
        exact hx ha
    exact ih h'

theorem nodup_edges_applyOp (g : Graph) (op : CypherOp) (h : g.edges.Nodup) :
    (applyOp g op).edges.Nodup := by
  cases op with
  | createTombstones t => exact h
  | deleteClassNodes r => exact h.filter _
  | deleteMethodNodes r => exact h.filter _
  | createNodesBaseMain r m b =>
    rw [show (applyOp g (CypherOp.createNodesBaseMain r m b)).edges = g.edges from
      edges_foldl_appendCreated _ _]
    exact h
  | createNodesMain r m =>
    rw [show (applyOp g (CypherOp.createNodesMain r m)).edges = g.edges from
      edges_foldl_appendCreated _ _]
    exact h
  | createNodesPlain r =>
    rw [show (applyOp g (CypherOp.createNodesPlain r)).edges = g.edges from
      edges_foldl_appendCreated _ _]
    exact h
  | callRelsBase r b m => exact nodup_mergeEdges h
  | callRelsMain r m => exact nodup_mergeEdges h
  | callRelsPlain r => exact nodup_mergeEdges h
  | implClassFallback r b m => exact nodup_mergeEdges h
  | implClassPlain r => exact nodup_mergeEdges h
  | implMethodFallback r b m => exact nodup_mergeEdges h
  | implMethodPlain r => exact nodup_mergeEdges h
  | useClassFallback r b m => exact nodup_mergeEdges h
  | useClassPlain r => exact nodup_mergeEdges h
  | useMethodFallback r b m => exact nodup_mergeEdges h
  | useMethodPlain r => exact nodup_mergeEdges h

theorem nodup_edges_applyOps (g : Graph) (ops : List CypherOp) (h : g.edges.Nodup) :
    (applyOps g ops).edges.Nodup := by
  induction ops generalizing g with
  | nil => exact h
  | cons op rest ih => exact ih _ (nodup_edges_applyOp g op h)

end SourceAtlas

namespace SourceAtlas

/-- All class-delete rows a chunk list contributes. -/
def classRecsOf (l : List CodeChunk) : List DelRec := l.map classDelRec

/-- All method-delete rows a chunk list contributes. -/
def methodRecsOf (l : List CodeChunk) : List DelRec :=
  l.flatMap (fun c => c.methods.map (methodDelRec c))

theorem classDelHits_append_left {a b : List DelRec} {n : DbNode}
    (h : classDelHits a n = true) : classDelHits (a ++ b) n = true := by
  unfold classDelHits at h ⊢
  simp only [Bool.and_eq_true, List.any_append, Bool.or_eq_true] at h ⊢
  exact ⟨⟨Or.inl h.1.1, h.1.2⟩, h.2⟩

theorem methodDelHits_append_left {a b : List DelRec} {n : DbNode}
    (h : methodDelHits a n = true) : methodDelHits (a ++ b) n = true := by
  unfold methodDelHits at h ⊢
  simp only [Bool.and_eq_true, List.any_append, Bool.or_eq_true] at h ⊢
  exact ⟨⟨Or.inl h.1.1, h.1.2⟩, h.2⟩

theorem nodes_detachDelete (g : Graph) (p : DbNode → Bool) :
    (detachDelete g p).nodes = g.nodes.filter (fun n => !(p n)) := rfl

theorem classDelHits_nil (n : DbNode) : classDelHits [] n = false := by
  simp [classDelHits]

theorem methodDelHits_nil (n : DbNode) : methodDelHits [] n = false := by
  simp [methodDelHits]

theorem applyOps_append (g : Graph) (a b : List CypherOp) :
    applyOps g (a ++ b) = applyOps (applyOps g a) b := by
  simp [applyOps, List.foldl_append]

/-- Net node effect of one chunk-iteration's pair of delete queries. -/
theorem nodes_applyOps_deletePair (g : Graph) (cAcc' mAcc' : List DelRec) :
    (applyOps g ((if cAcc'.isEmpty then [] else [CypherOp.deleteClassNodes cAcc']) ++
        (if mAcc'.isEmpty then [] else [CypherOp.deleteMethodNodes mAcc']))).nodes =
      g.nodes.filter (fun n => !(classDelHits cAcc' n) && !(methodDelHits mAcc' n)) := by
  by_cases hc : cAcc'.isEmpty
  · have hcnil : cAcc' = [] := by
      cases cAcc'
      · rfl
      · simp at hc
    subst hcnil
    by_cases hm : mAcc'.isEmpty
    · have hmnil : mAcc' = [] := by
        cases mAcc'
        · rfl
        · simp at hm
      subst hmnil
      simp only [List.isEmpty_nil, if_true, List.append_nil, applyOps, List.foldl_nil]
      rw [show (fun n => !(classDelHits [] n) && !(methodDelHits [] n)) =
          (fun (_ : DbNode) => true) from ?_]
      · rw [List.filter_true]
      · funext n
        simp [classDelHits_nil, methodDelHits_nil]
    · rw [if_pos (show ([] : List DelRec).isEmpty = true from rfl), if_neg hm]
      show (applyOp g (CypherOp.deleteMethodNodes mAcc')).nodes = _
      rw [show applyOp g (CypherOp.deleteMethodNodes mAcc') =
          detachDelete g (methodDelHits mAcc') from rfl, nodes_detachDelete]
      apply List.filter_congr
      intro n _
      simp [classDelHits_nil]
  · by_cases hm : mAcc'.isEmpty
    · have hmnil : mAcc' = [] := by
        cases mAcc'
        · rfl
        · simp at hm
      subst hmnil
      rw [if_neg hc, if_pos (show ([] : List DelRec).isEmpty = true from rfl), List.append_nil]
      show (applyOp g (CypherOp.deleteClassNodes cAcc')).nodes = _
      rw [show applyOp g (CypherOp.deleteClassNodes cAcc') =
          detachDelete g (classDelHits cAcc') from rfl, nodes_detachDelete]
      apply List.filter_congr
      intro n _
      simp [methodDelHits_nil]
    · rw [if_neg hc, if_neg hm]
      show (applyOp (applyOp g (CypherOp.deleteClassNodes cAcc'))
        (CypherOp.deleteMethodNodes mAcc')).nodes = _
      rw [show applyOp g (CypherOp.deleteClassNodes cAcc') =
          detachDelete g (classDelHits cAcc') from rfl]
      rw [show ∀ g', applyOp g' (CypherOp.deleteMethodNodes mAcc') =
          detachDelete g' (methodDelHits mAcc') from fun _ => rfl]
      rw [nodes_detachDelete, nodes_detachDelete, List.filter_filter]
      apply List.filter_congr
      intro n _
      rw [Bool.and_comm]

/-- Net node effect of the whole accumulated delete-query sequence of one
batch: exactly the nodes hit by the batch's full class/method delete row
lists disappear. -/
theorem nodes_applyOps_deleteOpsAux :
    ∀ (l : List CodeChunk) (cAcc mAcc : List DelRec) (g : Graph), l ≠ [] →
      (applyOps g (deleteOpsAux l cAcc mAcc)).nodes =
        g.nodes.filter (fun n =>
          !(classDelHits (cAcc ++ classRecsOf l) n) &&
          !(methodDelHits (mAcc ++ methodRecsOf l) n)) := by
  intro l
  induction l with
  | nil => intro _ _ _ h; exact absurd rfl h
  | cons c rest ih =>
    intro cAcc mAcc g _
    show (applyOps g
      (((if (cAcc ++ [classDelRec c]).isEmpty then []
         else [CypherOp.deleteClassNodes (cAcc ++ [classDelRec c])]) ++
        (if (mAcc ++ c.methods.map (methodDelRec c)).isEmpty then []
         else [CypherOp.deleteMethodNodes (mAcc ++ c.methods.map (methodDelRec c))])) ++
        deleteOpsAux rest (cAcc ++ [classDelRec c])
          (mAcc ++ c.methods.map (methodDelRec c)))).nodes = _
    rw [applyOps_append]
    cases rest with
    | nil =>
      rw [show deleteOpsAux [] (cAcc ++ [classDelRec c])
          (mAcc ++ c.methods.map (methodDelRec c)) = [] from rfl]
      rw [show ∀ (h : Graph), applyOps h [] = h from fun _ => rfl]
      rw [nodes_applyOps_deletePair]
      apply List.filter_congr
      intro n _
      have h1 : cAcc ++ classRecsOf [c] = cAcc ++ [classDelRec c] := by
        simp [classRecsOf]
      have h2 : mAcc ++ methodRecsOf [c] = mAcc ++ c.methods.map (methodDelRec c) := by
        simp [methodRecsOf]
      rw [h1, h2]
    | cons c2 rest2 =>
      rw [ih _ _ _ (by simp)]
      rw [nodes_applyOps_deletePair, List.filter_filter]
      apply List.filter_congr
      intro n _
      have hcl : cAcc ++ classRecsOf (c :: c2 :: rest2) =
          (cAcc ++ [classDelRec c]) ++ classRecsOf (c2 :: rest2) := by
        simp [classRecsOf]
      have hml : mAcc ++ methodRecsOf (c :: c2 :: rest2) =
          (mAcc ++ c.methods.map (methodDelRec c)) ++ methodRecsOf (c2 :: rest2) := by
        simp [methodRecsOf]
      rw [hcl, hml]
      rcases h1 : classDelHits ((cAcc ++ [classDelRec c]) ++ classRecsOf (c2 :: rest2)) n
        with - | -
      · rcases h2 : methodDelHits ((mAcc ++ c.methods.map (methodDelRec c)) ++
            methodRecsOf (c2 :: rest2)) n with - | -
        · have hA : classDelHits (cAcc ++ [classDelRec c]) n = false := by
            cases hA' : classDelHits (cAcc ++ [classDelRec c]) n
            · rfl
            · rw [classDelHits_append_left hA'] at h1
              exact h1
          have hB : methodDelHits (mAcc ++ c.methods.map (methodDelRec c)) n = false := by
            cases hB' : methodDelHits (mAcc ++ c.methods.map (methodDelRec c)) n
            · rfl
            · rw [methodDelHits_append_left hB'] at h2
              exact h2
          simp [hA, hB]
        · simp
      · simp

end SourceAtlas

namespace SourceAtlas

theorem chunkBatchesAux_nil : ∀ (fuel n : Nat), chunkBatchesAux fuel n ([] : List CodeChunk) = [] := by
  intro fuel n
  cases fuel <;> rfl

theorem chunkBatches_single {l : List CodeChunk} {n : Nat} (h0 : l ≠ []) (h : l.length ≤ n) :
    chunkBatches n l = [l] := by
  rcases l with - | ⟨x, xs⟩
  · exact absurd rfl h0
  · show chunkBatchesAux (x :: xs).length n (x :: xs) = [x :: xs]
    rw [show (x :: xs).length = xs.length + 1 from rfl]
    unfold chunkBatchesAux
    rw [List.take_of_length_le h, List.drop_eq_nil_of_le h, chunkBatchesAux_nil]

theorem createOpFor_not_main {recs : List NodeRec} {main base : Option String}
    (h : optTruthy main = false) : createOpFor recs main base = CypherOp.createNodesPlain recs := by
  unfold createOpFor
  rw [if_neg (by simp [h]), if_neg (by simp [h])]

theorem nodes_applyOps_relOps (g : Graph) (ops : List CypherOp)
    (h : ∀ op ∈ ops, isNodeOp op = false) : (applyOps g ops).nodes = g.nodes := by
  induction ops generalizing g with
  | nil => rfl
  | cons op rest ih =>
    show (applyOps (applyOp g op) rest).nodes = g.nodes
    rw [ih _ (fun o ho => h o (List.mem_cons_of_mem _ ho)),
      nodes_applyOp_rel _ _ (h op (List.mem_cons_self _ _))]

theorem mem_nodeRecs_cases {r : NodeRec} {chunks : List CodeChunk}
    {main base baseVer pr version : Option String}
    (h : r ∈ chunks.flatMap (nodeRecsForChunk main base baseVer pr version)) :
    (∃ c ∈ chunks, r = classNodeRec main base baseVer pr version c) ∨
    (∃ c ∈ chunks, ∃ m ∈ c.methods, r = methodNodeRec main base baseVer pr version c m) := by
  rcases List.mem_flatMap.1 h with ⟨c, hc, hr⟩
  unfold nodeRecsForChunk at hr
  rcases List.mem_cons.1 hr with h' | h'
  · exact Or.inl ⟨c, hc, h'⟩
  · rcases List.mem_map.1 h' with ⟨m, hm, rfl⟩
    exact Or.inr ⟨c, hc, m, hm, rfl⟩

/-- Every node the unconditional creation query produces for this batch is
hit by the batch's own delete rows (same keys, no PR scope). -/
theorem created_keyed {chunks : List CodeChunk} {base baseVer version : Option String}
    {main : Option String} {n : DbNode} {s : Nat}
    (hn : n ∈ createdNodes s ((chunks.flatMap
      (nodeRecsForChunk main base baseVer none version)).map (fun r => (r, 1)))) :
    (classDelHits (classRecsOf chunks) n || methodDelHits (methodRecsOf chunks) n) = true := by
  obtain ⟨rk, hrk, i, rfl⟩ := mem_createdNodes hn
  rcases List.mem_map.1 hrk with ⟨r, hr, rfl⟩
  rcases mem_nodeRecs_cases hr with ⟨c, hc, rfl⟩ | ⟨c, hc, m, hm, rfl⟩
  · apply Bool.or_eq_true_iff.2
    left
    unfold classDelHits
    simp only [Bool.and_eq_true, List.any_eq_true]
    refine ⟨⟨⟨classDelRec c, List.mem_map.2 ⟨c, hc, rfl⟩, ?_⟩, rfl⟩, rfl⟩
    simp [nodeOfRec, classNodeRec, classDelRec]
  · apply Bool.or_eq_true_iff.2
    right
    unfold methodDelHits
    simp only [Bool.and_eq_true, List.any_eq_true]
    refine ⟨⟨⟨methodDelRec c m, ?_, ?_⟩, ?_⟩, rfl⟩
    · exact List.mem_flatMap.2 ⟨c, hc, List.mem_map.2 ⟨m, hm, rfl⟩⟩
    · simp [nodeOfRec, methodNodeRec, methodDelRec, patEq]
    · simp [nodeOfRec, methodNodeRec]

end SourceAtlas

namespace SourceAtlas

theorem isNodeOp_false_of_mem_relOpsForBatch {op : CypherOp} {b : List CodeChunk}
    {main base : Option String} (h : op ∈ relOpsForBatch main base b) :
    isNodeOp op = false := by
  have hrel := isRelOp_of_mem_relOpsForBatch h
  cases hno : isNodeOp op
  · rfl
  · rw [isRelOp, hno] at hrel
    simp at hrel

/-- The node list a single-batch `import_code_chunks_simple` run leaves (no
tombstones, no PR id, no truthy main branch): the partition's batch-keyed
nodes are removed and one fresh node per `node_data` row is appended. -/
theorem run_simple_nodes (g : Graph) (chunks : List CodeChunk) (bs : Nat)
    (main base version baseVer : Option String)
    (hmain : optTruthy main = false) (hne : chunks ≠ []) (hbs : chunks.length ≤ bs) :
    ∃ s, (doImportCodeChunksSimple g chunks bs main base none version baseVer none).nodes =
      g.nodes.filter (fun n => !(classDelHits (classRecsOf chunks) n) &&
        !(methodDelHits (methodRecsOf chunks) n)) ++
      createdNodes s ((chunks.flatMap
        (nodeRecsForChunk main base baseVer none version)).map (fun r => (r, 1))) := by
  rcases hch : chunks with - | ⟨c0, r0⟩
  · exact absurd hch hne
  · refine ⟨(applyOps g (deleteOpsAux (c0 :: r0) [] [])).nextId, ?_⟩
    show (applyOps g (generate_cypher_from_chunks (c0 :: r0) bs main base none version
      baseVer none)).nodes = _
    rw [generate_eq_phases]
    have hb : chunkBatches bs (c0 :: r0) = [c0 :: r0] :=
      chunkBatches_single (by simp) (by simpa [hch] using hbs)
    rw [hb]
    unfold nodePhasePart
    rw [hb]
    rw [show tombstoneOps (c0 :: r0) version base baseVer none = [] from rfl]
    simp only [List.nil_append, List.flatMap_cons, List.flatMap_nil, List.append_nil]
    unfold nodeOpsForBatch
    rw [List.append_assoc, applyOps_append, applyOps_append]
    rw [nodes_applyOps_relOps _ _ (fun op hop => isNodeOp_false_of_mem_relOpsForBatch hop)]
    rw [show ([createOpFor ((c0 :: r0).flatMap
        (nodeRecsForChunk main base baseVer none version)) main base] : List CypherOp) =
      [CypherOp.createNodesPlain ((c0 :: r0).flatMap
        (nodeRecsForChunk main base baseVer none version))] from by
        rw [createOpFor_not_main hmain]]
    rw [show ∀ (h : Graph) (recs : List NodeRec),
        applyOps h [CypherOp.createNodesPlain recs] =
          (recs.map (fun r => (r, 1))).foldl appendCreated h from fun _ _ => rfl]
    rw [nodes_foldl_appendCreated]
    rw [nodes_applyOps_deleteOpsAux (c0 :: r0) [] [] g (by simp)]
    simp only [List.nil_append, List.flatMap_cons]

theorem run_simple_edges_nodup (g : Graph) (chunks : List CodeChunk) (bs : Nat)
    (main base pr version baseVer : Option String) (deleted : Option (List DeletedRec))
    (hnd : g.edges.Nodup) :
    (doImportCodeChunksSimple g chunks bs main base pr version baseVer deleted).edges.Nodup := by
  unfold doImportCodeChunksSimple
  cases chunks
  · exact hnd
  · exact nodup_edges_applyOps _ _ hnd

end SourceAtlas

namespace SourceAtlas

/-- Fixture for the C4 counterexample: one class fact plus one declared
deletion, imported twice with identical arguments. -/
def delRecD : DeletedRec :=
  { name := "D", class_name := "D", method_name := none, node_type := none
    file_path := none, ast_hash := none, project_id := none, branch := none }

/-- C4 counterexample: two consecutive `import_code_chunks_simple` calls with
*identical* arguments that include a `deleted_nodes` entry.  The tombstone
query creates a marker node unconditionally on every run while the delete
queries only cover chunk keys, so the second call grows the node count
(2 → 3) — the claimed idempotence fails. -/
theorem C4_counterexample :
    (doImportCodeChunksSimple
        (doImportCodeChunksSimple gEmpty [mkChunk "A" "h" []] 100 none none none (some "v")
          none (some [delRecD]))
        [mkChunk "A" "h" []] 100 none none none (some "v") none
        (some [delRecD])).nodes.length ≠
      (doImportCodeChunksSimple gEmpty [mkChunk "A" "h" []] 100 none none none (some "v")
        none (some [delRecD])).nodes.length := by
  decide

/-- C4 amended: for a single-batch chunk list with no `deleted_nodes`, no
`pull_request_id` and no truthy `main_branch` (the full-rebuild mode the
simple import is meant for), two consecutive `import_code_chunks_simple`
calls with identical arguments keep the node count of the first call, and —
starting from a store without duplicate edges — neither call leaves a
duplicate edge (every relationship query is a `MERGE`). -/
theorem C4_amended_idempotence (g : Graph) (chunks : List CodeChunk) (bs : Nat)
    (main base version baseVer : Option String)
    (hmain : optTruthy main = false) (hbs : chunks.length ≤ bs)
    (hnd : g.edges.Nodup) :
    (doImportCodeChunksSimple
        (doImportCodeChunksSimple g chunks bs main base none version baseVer none)
        chunks bs main base none version baseVer none).nodes.length =
      (doImportCodeChunksSimple g chunks bs main base none version baseVer
        none).nodes.length ∧
    (doImportCodeChunksSimple g chunks bs main base none version baseVer
      none).edges.Nodup ∧
    (doImportCodeChunksSimple
        (doImportCodeChunksSimple g chunks bs main base none version baseVer none)
        chunks bs main base none version baseVer none).edges.Nodup := by
  refine ⟨?_, run_simple_edges_nodup _ _ _ _ _ _ _ _ _ hnd,
    run_simple_edges_nodup _ _ _ _ _ _ _ _ _
      (run_simple_edges_nodup _ _ _ _ _ _ _ _ _ hnd)⟩
  by_cases hch : chunks = []
  · subst hch
    rfl
  · obtain ⟨s1, h1⟩ := run_simple_nodes g chunks bs main base version baseVer hmain hch hbs
    obtain ⟨s2, h2⟩ := run_simple_nodes
      (doImportCodeChunksSimple g chunks bs main base none version baseVer none)
      chunks bs main base version baseVer hmain hch hbs
    rw [h2, h1]
    have hnil : (createdNodes s1 ((chunks.flatMap
        (nodeRecsForChunk main base baseVer none version)).map (fun r => (r, 1)))).filter
        (fun n => !classDelHits (classRecsOf chunks) n &&
          !methodDelHits (methodRecsOf chunks) n) = [] :=
      List.filter_eq_nil_iff.mpr (fun n hn hcontra => by
        have hk := created_keyed hn
        rcases Bool.or_eq_true_iff.1 hk with hcd | hmd
        · simp [hcd] at hcontra
        · simp [hmd] at hcontra)
    rw [List.filter_append, hnil, List.filter_filter]
    simp only [Bool.and_self, List.append_nil, List.length_append]
    rw [createdNodes_length_ones, createdNodes_length_ones]

/-- Witness for C4's amended theorem at a concrete input. -/
theorem C4_witness :
    (doImportCodeChunksSimple
        (doImportCodeChunksSimple gEmpty [mkChunk "A" "h" []] 100 none none none (some "v")
          none none)
        [mkChunk "A" "h" []] 100 none none none (some "v") none none).nodes.length =
      (doImportCodeChunksSimple gEmpty [mkChunk "A" "h" []] 100 none none none (some "v")
        none none).nodes.length :=
  (C4_amended_idempotence gEmpty [mkChunk "A" "h" []] 100 none none (some "v") none
    rfl (by decide) List.nodup_nil).1

end SourceAtlas

namespace SourceAtlas

/-- Nodes of the store at one identity key
`(class_name, method_name, project_id, branch)`. -/
def nodesAt (g : Graph) (cls : String) (m : Option String) (pid branch : String) :
    List DbNode :=
  g.nodes.filter (fun n =>
    n.class_name == cls && n.method_name == m && n.project_id == pid && n.branch == branch)

/-- Fixture: a `deleted_nodes` entry naming class `A` of the fixture
partition (project 1, branch `dev`). -/
def delRecA : DeletedRec :=
  { name := "A", class_name := "A", method_name := none, node_type := none
    file_path := none, ast_hash := none, project_id := none, branch := none }

/-- C6 counterexample: class `A` is imported in run N and declared in
`deleted_nodes` in run N+1, whose chunks cover only `Z`.  The delete queries
are driven by the run's chunks, never by `deleted_nodes`, so run N's `A`
node survives with status ACTIVE next to the new DELETED marker — the branch
does not hold "exactly one DELETED node and zero ACTIVE nodes" at that
identity. -/
theorem C6_counterexample :
    (nodesAt
        (doImportCodeChunksSimple
          (doImportCodeChunksSimple gEmpty [mkChunk "A" "hA" [], mkChunk "Z" "hZ" []] 100
            none none none (some "v1") none none)
          [mkChunk "Z" "hZ" []] 100 none none none (some "v2") none (some [delRecA]))
        "A" none "1" "dev").countP (fun n => n.status == "ACTIVE") ≠ 0 := by
  decide

/-- `tombstone_data` is turned into its query exactly when non-empty. -/
theorem tombstoneOps_some (chunks : List CodeChunk) (version base baseVer : Option String)
    (ds : List DeletedRec) (hds : ds ≠ []) :
    tombstoneOps chunks version base baseVer (some ds) =
      [CypherOp.createTombstones (ds.map (tombRecFor chunks version base baseVer))] := by
  have h0 : ds.isEmpty = false := by
    cases ds
    · exact absurd rfl hds
    · rfl
  show (if ds.isEmpty = true then [] else
    [CypherOp.createTombstones (ds.map (tombRecFor chunks version base baseVer))]) =
    [CypherOp.createTombstones (ds.map (tombRecFor chunks version base baseVer))]
  rw [h0]
  rfl

/-- Running the simple import with `deleted_nodes` equals first executing the
tombstone query, then running the same import without `deleted_nodes` (the
remaining generated queries do not depend on it). -/
theorem simple_deleted_split (g : Graph) (chunks : List CodeChunk) (bs : Nat)
    (main base version baseVer : Option String) (ds : List DeletedRec)
    (hch : chunks ≠ []) (hds : ds ≠ []) :
    doImportCodeChunksSimple g chunks bs main base none version baseVer (some ds) =
      doImportCodeChunksSimple
        (applyOp g (CypherOp.createTombstones (ds.map (tombRecFor chunks version base baseVer))))
        chunks bs main base none version baseVer none := by
  rcases chunks with - | ⟨c0, r0⟩
  · exact absurd rfl hch
  · show applyOps g
        (generate_cypher_from_chunks (c0 :: r0) bs main base none version baseVer (some ds)) =
      applyOps
        (applyOp g (CypherOp.createTombstones
          (ds.map (tombRecFor (c0 :: r0) version base baseVer))))
        (generate_cypher_from_chunks (c0 :: r0) bs main base none version baseVer none)
    unfold generate_cypher_from_chunks
    rw [tombstoneOps_some (c0 :: r0) version base baseVer ds hds]
    rfl

end SourceAtlas

namespace SourceAtlas

/-- C6 amended: the tombstone round-trip holds only at a *vacant* identity.
For a single-batch run with no truthy `main_branch`, no `pull_request_id`
and `deleted_nodes = [d]`, if the store holds no node at the tombstone's
identity and the identity's class key is not among the run's chunks, then
after the run exactly one node sits at that identity: the marker node, with
status DELETED, the synthetic `[DELETED] …` content, and the run's version.
(When a prior node does sit at the identity it survives untouched — see the
counterexample — because the delete queries are driven by the chunks, not by
`deleted_nodes`.) -/
theorem C6_amended_tombstone (g : Graph) (chunks : List CodeChunk) (bs : Nat)
    (main base version baseVer : Option String) (d : DeletedRec) (t : TombRec)
    (ht : t = tombRecFor chunks version base baseVer d)
    (hmain : optTruthy main = false) (hch : chunks ≠ []) (hbs : chunks.length ≤ bs)
    (hvac : nodesAt g t.class_name t.method_name t.project_id t.branch = [])
    (hkey : ∀ c ∈ chunks, c.full_class_name ≠ t.class_name) :
    nodesAt (doImportCodeChunksSimple g chunks bs main base none version baseVer (some [d]))
        t.class_name t.method_name t.project_id t.branch = [nodeOfTomb t g.nextId] ∧
    ∀ n ∈ nodesAt
        (doImportCodeChunksSimple g chunks bs main base none version baseVer (some [d]))
        t.class_name t.method_name t.project_id t.branch,
      n.status = "DELETED" ∧ n.content = tombContent d.class_name d.method_name ∧
        n.version = orUnknown version := by
  have hg' : (applyOp g (CypherOp.createTombstones
      ([d].map (tombRecFor chunks version base baseVer)))).nodes =
      g.nodes ++ [nodeOfTomb t g.nextId] := by
    rw [ht]
    rfl
  have hcd : classDelHits (classRecsOf chunks) (nodeOfTomb t g.nextId) = false := by
    rw [Bool.eq_false_iff]
    intro htr
    unfold classDelHits at htr
    simp only [Bool.and_eq_true, List.any_eq_true] at htr
    obtain ⟨⟨⟨r, hr, hmatch⟩, -⟩, -⟩ := htr
    rcases List.mem_map.1 hr with ⟨c, hc0, rfl⟩
    simp only [nodeOfTomb, classDelRec, Bool.and_eq_true, beq_iff_eq] at hmatch
    exact hkey c hc0 hmatch.1.1.symm
  have hmd : methodDelHits (methodRecsOf chunks) (nodeOfTomb t g.nextId) = false := by
    rw [Bool.eq_false_iff]
    intro htr
    unfold methodDelHits at htr
    simp only [Bool.and_eq_true, List.any_eq_true] at htr
    obtain ⟨⟨⟨r, hr, hmatch⟩, -⟩, -⟩ := htr
    rcases List.mem_flatMap.1 hr with ⟨c, hc0, hr'⟩
    rcases List.mem_map.1 hr' with ⟨m, hm0, rfl⟩
    simp only [nodeOfTomb, methodDelRec, Bool.and_eq_true, beq_iff_eq] at hmatch
    exact hkey c hc0 hmatch.1.1.1.symm
  have h3 : ∀ s0 : Nat, (createdNodes s0
      ((chunks.flatMap
        (nodeRecsForChunk main base baseVer none version)).map (fun r => (r, 1)))).filter
      (fun n => n.class_name == t.class_name && n.method_name == t.method_name &&
        n.project_id == t.project_id && n.branch == t.branch) = [] := fun s0 =>
    List.filter_eq_nil_iff.mpr (fun n hn hcontra => by
      obtain ⟨rk, hrk, i, rfl⟩ := mem_createdNodes hn
      rcases List.mem_map.1 hrk with ⟨r, hr, rfl⟩
      rcases mem_nodeRecs_cases hr with ⟨c, hc0, rfl⟩ | ⟨c, hc0, m, hm, rfl⟩
      · simp only [nodeOfRec, classNodeRec, Bool.and_eq_true, beq_iff_eq] at hcontra
        exact hkey c hc0 hcontra.1.1.1
      · simp only [nodeOfRec, methodNodeRec, Bool.and_eq_true, beq_iff_eq] at hcontra
        exact hkey c hc0 hcontra.1.1.1)
  have hvac' : g.nodes.filter (fun n => n.class_name == t.class_name &&
      n.method_name == t.method_name && n.project_id == t.project_id &&
      n.branch == t.branch) = [] := hvac
  have h2 : (g.nodes.filter (fun n => !(classDelHits (classRecsOf chunks) n) &&
      !(methodDelHits (methodRecsOf chunks) n))).filter
      (fun n => n.class_name == t.class_name && n.method_name == t.method_name &&
        n.project_id == t.project_id && n.branch == t.branch) = [] :=
    List.filter_eq_nil_iff.mpr (fun n hn =>
      List.filter_eq_nil_iff.mp hvac' n (List.mem_of_mem_filter hn))
  have h1 : ((g.nodes ++ [nodeOfTomb t g.nextId]).filter (fun n =>
      !(classDelHits (classRecsOf chunks) n) && !(methodDelHits (methodRecsOf chunks) n))) =
      g.nodes.filter (fun n => !(classDelHits (classRecsOf chunks) n) &&
        !(methodDelHits (methodRecsOf chunks) n)) ++ [nodeOfTomb t g.nextId] := by
    rw [List.filter_append]
    simp [hcd, hmd]
  have hone : nodesAt (doImportCodeChunksSimple g chunks bs main base none version baseVer
      (some [d])) t.class_name t.method_name t.project_id t.branch =
      [nodeOfTomb t g.nextId] := by
    rw [simple_deleted_split g chunks bs main base version baseVer [d] hch
      (List.cons_ne_nil d [])]
    obtain ⟨s, hs⟩ := run_simple_nodes
      (applyOp g (CypherOp.createTombstones ([d].map (tombRecFor chunks version base baseVer))))
      chunks bs main base version baseVer hmain hch hbs
    rw [hg'] at hs
    unfold nodesAt
    rw [hs, List.filter_append, h1, List.filter_append, h2, h3 s]
    simp [nodeOfTomb]
  refine ⟨hone, ?_⟩
  intro n hn
  rw [hone] at hn
  have hn' : n = nodeOfTomb t g.nextId := List.mem_singleton.1 hn
  subst hn'
  rw [ht]
  exact ⟨rfl, rfl, rfl⟩

end SourceAtlas

namespace SourceAtlas

/-- Witness for C6's amended theorem at a concrete input: deleting class `A`
while importing `Z` into an empty store leaves exactly the marker node at
`A`'s identity. -/
theorem C6_witness :
    nodesAt (doImportCodeChunksSimple gEmpty [mkChunk "Z" "hZ" []] 100 none none none
        (some "v") none (some [delRecA]))
      (tombRecFor [mkChunk "Z" "hZ" []] (some "v") none none delRecA).class_name
      (tombRecFor [mkChunk "Z" "hZ" []] (some "v") none none delRecA).method_name
      (tombRecFor [mkChunk "Z" "hZ" []] (some "v") none none delRecA).project_id
      (tombRecFor [mkChunk "Z" "hZ" []] (some "v") none none delRecA).branch =
      [nodeOfTomb (tombRecFor [mkChunk "Z" "hZ" []] (some "v") none none delRecA)
        gEmpty.nextId] :=
  (C6_amended_tombstone gEmpty [mkChunk "Z" "hZ" []] 100 none none (some "v") none delRecA
    (tombRecFor [mkChunk "Z" "hZ" []] (some "v") none none delRecA) rfl rfl
    (List.cons_ne_nil _ _) (by decide) rfl (by decide)).1

end SourceAtlas

namespace SourceAtlas

/-- The copies one full page of `_create_batch_copy_query` makes of the
eligible source-branch nodes (fresh sequential ids, target branch). -/
def cloneCopies (g : Graph) (d : List (String × String))
    (project_id main_branch current_branch : String) : List DbNode :=
  (g.nodes.filter (cloneEligible d project_id main_branch)).enum.map
    (fun sn => { sn.2 with nid := g.nextId + sn.1, branch := current_branch })

/-- The `NodeMapping` rows that page `MERGE`s alongside the copies. -/
def cloneMaps (g : Graph) (d : List (String × String))
    (project_id main_branch current_branch : String) : List Mapping :=
  (g.nodes.filter (cloneEligible d project_id main_branch)).enum.map
    (fun sn => Mapping.mk sn.2.nid (g.nextId + sn.1) project_id current_branch)

/-- With no mapping rows at all, `_cleanup_existing_mappings` is a no-op. -/
theorem cleanupExistingMappings_of_empty (g : Graph) (project_id current_branch : String)
    (h : g.mappings = []) : cleanupExistingMappings g project_id current_branch = g := by
  cases g with
  | mk ns es ms ni =>
    simp only [Graph.mk.injEq] at h ⊢
    unfold cleanupExistingMappings
    simp [h]

end SourceAtlas

namespace SourceAtlas

/-- When one page covers every eligible node, `_copy_nodes_in_batches`
appends exactly the copies and their mapping rows. -/
theorem copyNodesInBatches_single (g : Graph) (d : List (String × String))
    (project_id main_branch current_branch : String) (bs : Nat)
    (hbs : (g.nodes.filter (cloneEligible d project_id main_branch)).length ≤ bs) :
    (copyNodesInBatches g d project_id main_branch current_branch bs).1 =
      { g with nodes := g.nodes ++ cloneCopies g d project_id main_branch current_branch
               mappings := g.mappings ++ cloneMaps g d project_id main_branch current_branch
               nextId := g.nextId +
                 (g.nodes.filter (cloneEligible d project_id main_branch)).length } := by
  show (copyLoopAux d project_id main_branch current_branch bs
      ((g.nodes.filter (cloneEligible d project_id main_branch)).length)
      ((g.nodes.filter (cloneEligible d project_id main_branch)).length + 1) 0 g).1 = _
  by_cases h0 : (g.nodes.filter (cloneEligible d project_id main_branch)).length = 0
  · have hnil : g.nodes.filter (cloneEligible d project_id main_branch) = [] :=
      List.length_eq_zero.mp h0
    unfold copyLoopAux
    rw [if_neg (by omega)]
    unfold cloneCopies cloneMaps
    rw [hnil]
    simp
  · have hpos : 0 < (g.nodes.filter (cloneEligible d project_id main_branch)).length :=
      Nat.pos_of_ne_zero h0
    obtain ⟨k, hk⟩ : ∃ k, (g.nodes.filter (cloneEligible d project_id main_branch)).length
        = k + 1 := ⟨_, (Nat.succ_pred_eq_of_pos hpos).symm⟩
    have hslice : ((g.nodes.filter (cloneEligible d project_id main_branch)).drop 0).take bs =
        g.nodes.filter (cloneEligible d project_id main_branch) := by
      rw [List.drop_zero]
      exact List.take_of_length_le hbs
    have hgc : copyNodeBatch g d project_id main_branch current_branch 0 bs =
        ({ g with nodes := g.nodes ++ cloneCopies g d project_id main_branch current_branch
                  mappings := g.mappings ++ cloneMaps g d project_id main_branch current_branch
                  nextId := g.nextId +
                    (g.nodes.filter (cloneEligible d project_id main_branch)).length },
         (g.nodes.filter (cloneEligible d project_id main_branch)).length) := by
      unfold copyNodeBatch
      rw [hslice]
      unfold cloneCopies cloneMaps
      simp [List.map_map]
    have hc2 : ((g.nodes.filter (cloneEligible d project_id main_branch)).length == 0) =
        false := by
      rw [hk]
      rfl
    have hstop : copyLoopAux d project_id main_branch current_branch bs
        ((g.nodes.filter (cloneEligible d project_id main_branch)).length)
        ((g.nodes.filter (cloneEligible d project_id main_branch)).length) bs
        { g with nodes := g.nodes ++ cloneCopies g d project_id main_branch current_branch
                 mappings := g.mappings ++ cloneMaps g d project_id main_branch current_branch
                 nextId := g.nextId +
                   (g.nodes.filter (cloneEligible d project_id main_branch)).length } =
        ({ g with nodes := g.nodes ++ cloneCopies g d project_id main_branch current_branch
                  mappings := g.mappings ++ cloneMaps g d project_id main_branch current_branch
                  nextId := g.nextId +
                    (g.nodes.filter (cloneEligible d project_id main_branch)).length }, 0) := by
      rw [hk]
      unfold copyLoopAux
      rw [if_neg (by omega)]
    unfold copyLoopAux
    rw [if_pos hpos, hgc]
    simp only [hc2, zero_add]
    rw [if_neg (fun hcon => Bool.false_ne_true hcon), hstop]

end SourceAtlas

namespace SourceAtlas

/-- A page loop whose step only appends edges leaves nodes, mappings and
`nextId` untouched and only appends edges overall. -/
theorem relLoopAux_shape (step : Graph → Nat → Nat → Graph × Nat)
    (hstep : ∀ g' s l, ∃ add, (step g' s l).1 = { g' with edges := g'.edges ++ add }) :
    ∀ (fuel : Nat) (bs total skip : Nat) (g : Graph),
      ∃ add, relLoopAux step bs total fuel skip g = { g with edges := g.edges ++ add } := by
  intro fuel
  induction fuel with
  | zero =>
    intro bs total skip g
    refine ⟨[], ?_⟩
    show g = _
    rw [List.append_nil]
  | succ f ih =>
    intro bs total skip g
    unfold relLoopAux
    by_cases hs : skip < total
    · rw [if_pos hs]
      obtain ⟨a1, h1⟩ := hstep g skip bs
      by_cases hz : (step g skip bs).2 = 0
      · rw [if_pos (by simp [hz])]
        exact ⟨a1, h1⟩
      · rw [if_neg (by simp [hz])]
        obtain ⟨a2, h2⟩ := ih bs total (skip + bs) (step g skip bs).1
        refine ⟨a1 ++ a2, ?_⟩
        rw [h2, h1]
        simp
    · rw [if_neg hs]
      refine ⟨[], ?_⟩
      show g = _
      rw [List.append_nil]

/-- `_copy_cross_relationships` only appends edges. -/
theorem copyCrossRelationships_shape (g : Graph)
    (project_id main_branch current_branch : String) (rbs : Nat) :
    ∃ add, copyCrossRelationships g project_id main_branch current_branch rbs =
      { g with edges := g.edges ++ add } := by
  unfold copyCrossRelationships
  exact relLoopAux_shape _ (fun g' s l => ⟨_, rfl⟩) _ _ _ _ g

/-- `_copy_reverse_cross_relationships` only appends edges. -/
theorem copyReverseCrossRelationships_shape (g : Graph)
    (project_id main_branch current_branch : String) (rbs : Nat) :
    ∃ add, copyReverseCrossRelationships g project_id main_branch current_branch rbs =
      { g with edges := g.edges ++ add } := by
  unfold copyReverseCrossRelationships
  exact relLoopAux_shape _ (fun g' s l => ⟨_, rfl⟩) _ _ _ _ g

/-- `_copy_internal_relationships` only appends edges. -/
theorem copyInternalRelationships_shape (g : Graph)
    (project_id main_branch current_branch : String) (rbs : Nat) :
    ∃ add, copyInternalRelationships g project_id main_branch current_branch rbs =
      { g with edges := g.edges ++ add } := by
  unfold copyInternalRelationships
  exact relLoopAux_shape _ (fun g' s l => ⟨_, rfl⟩) _ _ _ _ g

end SourceAtlas

namespace SourceAtlas

/-- When no node of the partition duplicates an earlier node's
`(class_name, method_name)` key, `_remove_duplicate_nodes` is a no-op. -/
theorem removeDuplicateNodes_id (g : Graph) (project_id current_branch : String)
    (h : ∀ x ∈ g.nodes.enum,
      ((x.2.project_id == project_id && x.2.branch == current_branch &&
          x.2.pull_request_id == none) &&
        ((g.nodes.take x.1).any (fun p =>
          (p.project_id == project_id && p.branch == current_branch &&
            p.pull_request_id == none) && p.class_name == x.2.class_name &&
          p.method_name == x.2.method_name))) = false) :
    removeDuplicateNodes g project_id current_branch = g := by
  have hnil : g.nodes.enum.filter (fun inn =>
      (inn.2.project_id == project_id && inn.2.branch == current_branch &&
        inn.2.pull_request_id == none) &&
      ((g.nodes.take inn.1).any (fun p =>
        (p.project_id == project_id && p.branch == current_branch &&
          p.pull_request_id == none) && p.class_name == inn.2.class_name &&
        p.method_name == inn.2.method_name))) = [] :=
    List.filter_eq_nil_iff.mpr (fun x hx => by simp [h x hx])
  have hfil : g.nodes.enum.filter (fun inn =>
      !((inn.2.project_id == project_id && inn.2.branch == current_branch &&
          inn.2.pull_request_id == none) &&
        ((g.nodes.take inn.1).any (fun p =>
          (p.project_id == project_id && p.branch == current_branch &&
            p.pull_request_id == none) && p.class_name == inn.2.class_name &&
          p.method_name == inn.2.method_name)))) = g.nodes.enum :=
    List.filter_eq_self.mpr (fun x hx => by rw [h x hx]; rfl)
  show { g with
      nodes := (g.nodes.enum.filter (fun inn =>
        !((inn.2.project_id == project_id && inn.2.branch == current_branch &&
            inn.2.pull_request_id == none) &&
          ((g.nodes.take inn.1).any (fun p =>
            (p.project_id == project_id && p.branch == current_branch &&
              p.pull_request_id == none) && p.class_name == inn.2.class_name &&
            p.method_name == inn.2.method_name))))).map (fun inn => inn.2)
      edges := g.edges.filter (fun e =>
        !(((g.nodes.enum.filter (fun inn =>
            (inn.2.project_id == project_id && inn.2.branch == current_branch &&
              inn.2.pull_request_id == none) &&
            ((g.nodes.take inn.1).any (fun p =>
              (p.project_id == project_id && p.branch == current_branch &&
                p.pull_request_id == none) && p.class_name == inn.2.class_name &&
              p.method_name == inn.2.method_name)))).map (fun inn => inn.2.nid)).contains
          e.src) &&
        !(((g.nodes.enum.filter (fun inn =>
            (inn.2.project_id == project_id && inn.2.branch == current_branch &&
              inn.2.pull_request_id == none) &&
            ((g.nodes.take inn.1).any (fun p =>
              (p.project_id == project_id && p.branch == current_branch &&
                p.pull_request_id == none) && p.class_name == inn.2.class_name &&
              p.method_name == inn.2.method_name)))).map (fun inn => inn.2.nid)).contains
          e.tgt)) } = g
  rw [hnil, hfil]
  have hedges : g.edges.filter (fun e =>
      !((([] : List (Nat × DbNode)).map (fun inn => inn.2.nid)).contains e.src) &&
      !((([] : List (Nat × DbNode)).map (fun inn => inn.2.nid)).contains e.tgt)) =
      g.edges := List.filter_eq_self.mpr (fun x hx => rfl)
  rw [hedges]
  show { g with nodes := g.nodes.enum.map Prod.snd, edges := g.edges } = g
  rw [List.enum_eq_enumFrom, List.enumFrom_map_snd]

end SourceAtlas

namespace SourceAtlas

/-- Appending elements the predicate rejects does not change a filter. -/
theorem filter_append_false {α : Type} (l1 l2 : List α) (p : α → Bool)
    (h : ∀ c ∈ l2, p c = false) : (l1 ++ l2).filter p = l1.filter p := by
  rw [List.filter_append]
  have hnil : l2.filter p = [] := List.filter_eq_nil_iff.mpr (fun c hc => by
    rw [h c hc]
    exact Bool.false_ne_true)
  rw [hnil, List.append_nil]

/-- Adding target-branch nodes (and any mapping/counter change) does not
change the main-branch edge rows. -/
theorem mainEdgeRows_copy (g : Graph) (project_id main_branch current_branch : String)
    (copies : List DbNode) (maps : List Mapping) (ni : Nat)
    (hne : main_branch ≠ current_branch) (hcop : ∀ c ∈ copies, c.branch = current_branch) :
    mainEdgeRows { g with nodes := g.nodes ++ copies, mappings := maps, nextId := ni }
        project_id main_branch =
      mainEdgeRows g project_id main_branch := by
  have hbr : (current_branch == main_branch) = false := by
    simp [Ne.symm hne]
  unfold mainEdgeRows
  show g.edges.flatMap _ = g.edges.flatMap _
  congr 1
  funext e
  rw [filter_append_false g.nodes copies _
    (fun c hc => by simp [hcop c hc, hbr])]
  congr 1
  funext s
  rw [filter_append_false g.nodes copies _
    (fun c hc => by simp [hcop c hc, hbr])]

end SourceAtlas

namespace SourceAtlas

/-- A page loop whose step only appends edges keeps the first page's edges in
the final state (starting at `skip = 0` with a non-empty row set). -/
theorem relLoopAux_first_page (step : Graph → Nat → Nat → Graph × Nat)
    (hstep : ∀ g' s l, ∃ add, (step g' s l).1 = { g' with edges := g'.edges ++ add })
    (bs total fuel : Nat) (g : Graph) (h0 : 0 < total) :
    ∃ add, relLoopAux step bs total (fuel + 1) 0 g =
      { g with edges := (step g 0 bs).1.edges ++ add } := by
  unfold relLoopAux
  rw [if_pos h0]
  obtain ⟨a1, h1⟩ := hstep g 0 bs
  by_cases hz : (step g 0 bs).2 = 0
  · rw [if_pos (by simp [hz])]
    refine ⟨[], ?_⟩
    rw [List.append_nil]
    conv_rhs => rw [h1]
    exact h1
  · rw [if_neg (by simp [hz])]
    obtain ⟨a2, h2⟩ := relLoopAux_shape step hstep fuel bs total (0 + bs) (step g 0 bs).1
    refine ⟨a2, ?_⟩
    rw [h2]
    conv_lhs => rw [h1]
    conv_rhs => rw [h1]

end SourceAtlas

namespace SourceAtlas

/-- When one page covers the internal-relationship rows, every edge the
page's `apoc.create.relationship` produces is in the final edge list. -/
theorem copyInternalRelationships_mem (g : Graph)
    (project_id main_branch current_branch : String) (rbs : Nat) (e : DbEdge)
    (hrbs : (internalRelMappedRows g project_id main_branch current_branch).length ≤ rbs)
    (hmem : e ∈ (internalRelMappedRows g project_id main_branch current_branch).flatMap
      (fun r => (g.nodes.filter (fun cs => cs.nid == r.1)).flatMap (fun cs =>
        (g.nodes.filter (fun ct => ct.nid == r.2.1)).map (fun ct =>
          DbEdge.mk cs.nid ct.nid r.2.2)))) :
    e ∈ (copyInternalRelationships g project_id main_branch current_branch rbs).edges := by
  have h0 : 0 < (internalRelMappedRows g project_id main_branch current_branch).length := by
    rcases List.exists_of_mem_flatMap hmem with ⟨r, hr, -⟩
    exact List.length_pos.mpr (List.ne_nil_of_mem hr)
  obtain ⟨add, hshape⟩ := relLoopAux_first_page (fun g' skip limit =>
      let rows := ((internalRelMappedRows g' project_id main_branch current_branch).drop
        skip).take limit
      let newEdges := rows.flatMap (fun r =>
        (g'.nodes.filter (fun cs => cs.nid == r.1)).flatMap (fun cs =>
          (g'.nodes.filter (fun ct => ct.nid == r.2.1)).map (fun ct =>
            DbEdge.mk cs.nid ct.nid r.2.2)))
      ({ g' with edges := g'.edges ++ newEdges }, newEdges.length))
    (fun g' s l => ⟨_, rfl⟩) rbs
    (internalRelMappedRows g project_id main_branch current_branch).length
    (internalRelMappedRows g project_id main_branch current_branch).length g h0
  show e ∈ (relLoopAux (fun g' skip limit =>
      let rows := ((internalRelMappedRows g' project_id main_branch current_branch).drop
        skip).take limit
      let newEdges := rows.flatMap (fun r =>
        (g'.nodes.filter (fun cs => cs.nid == r.1)).flatMap (fun cs =>
          (g'.nodes.filter (fun ct => ct.nid == r.2.1)).map (fun ct =>
            DbEdge.mk cs.nid ct.nid r.2.2)))
      ({ g' with edges := g'.edges ++ newEdges }, newEdges.length)) rbs
      (internalRelMappedRows g project_id main_branch current_branch).length
      ((internalRelMappedRows g project_id main_branch current_branch).length + 1) 0 g).edges
  rw [hshape]
  refine List.mem_append.2 (Or.inl (List.mem_append.2 (Or.inr ?_)))
  show e ∈ (((internalRelMappedRows g project_id main_branch current_branch).drop 0).take
      rbs).flatMap (fun r =>
    (g.nodes.filter (fun cs => cs.nid == r.1)).flatMap (fun cs =>
      (g.nodes.filter (fun ct => ct.nid == r.2.1)).map (fun ct =>
        DbEdge.mk cs.nid ct.nid r.2.2)))
  rw [List.drop_zero, List.take_of_length_le hrbs]
  exact hmem

end SourceAtlas

namespace SourceAtlas

/-- In a fresh target partition, neither the original nodes nor the freshly
made copies (whose identity keys are pairwise distinct) trip the duplicate
test of `_remove_duplicate_nodes`. -/
theorem clone_dedup_hyp (g : Graph) (d : List (String × String))
    (project_id main_branch current_branch : String)
    (hfresh : ∀ n ∈ g.nodes, ¬(n.project_id = project_id ∧ n.branch = current_branch))
    (hkeys : (g.nodes.filter (cloneEligible d project_id main_branch)).Pairwise
      (fun a b => ¬(a.class_name = b.class_name ∧ a.method_name = b.method_name))) :
    ∀ x ∈ (g.nodes ++ cloneCopies g d project_id main_branch current_branch).enum,
      ((x.2.project_id == project_id && x.2.branch == current_branch &&
          x.2.pull_request_id == none) &&
        (((g.nodes ++ cloneCopies g d project_id main_branch current_branch).take x.1).any
          (fun p => (p.project_id == project_id && p.branch == current_branch &&
            p.pull_request_id == none) && p.class_name == x.2.class_name &&
          p.method_name == x.2.method_name))) = false := by
  rw [List.forall_mem_enum]
  intro i hi
  by_cases hlt : i < g.nodes.length
  · rw [List.getElem_append_left hlt]
    have hfr := hfresh (g.nodes[i]) (List.getElem_mem hlt)
    by_cases hp : (g.nodes[i]).project_id = project_id
    · by_cases hb : (g.nodes[i]).branch = current_branch
      · exact absurd ⟨hp, hb⟩ hfr
      · simp [hb]
    · simp [hp]
  · have hle := Nat.le_of_not_lt hlt
    have hilen : i < g.nodes.length +
        (cloneCopies g d project_id main_branch current_branch).length := by
      simpa using hi
    have hlen : i - g.nodes.length <
        (cloneCopies g d project_id main_branch current_branch).length := by omega
    rw [List.getElem_append_right hle]
    have hanyfalse : ((g.nodes ++ cloneCopies g d project_id main_branch
        current_branch).take i).any
        (fun p => (p.project_id == project_id && p.branch == current_branch &&
          p.pull_request_id == none) &&
          p.class_name == ((cloneCopies g d project_id main_branch
            current_branch)[i - g.nodes.length]).class_name &&
          p.method_name == ((cloneCopies g d project_id main_branch
            current_branch)[i - g.nodes.length]).method_name) = false := by
      rw [List.take_append_eq_append_take, List.take_of_length_le hle, List.any_append]
      have h1 : g.nodes.any (fun p => (p.project_id == project_id &&
          p.branch == current_branch && p.pull_request_id == none) &&
          p.class_name == ((cloneCopies g d project_id main_branch
            current_branch)[i - g.nodes.length]).class_name &&
          p.method_name == ((cloneCopies g d project_id main_branch
            current_branch)[i - g.nodes.length]).method_name) = false := by
        rw [List.any_eq_false]
        intro p hp
        have hfr := hfresh p hp
        by_cases hpp : p.project_id = project_id
        · by_cases hpb : p.branch = current_branch
          · exact absurd ⟨hpp, hpb⟩ hfr
          · simp [hpb]
        · simp [hpp]
      have h2 : ((cloneCopies g d project_id main_branch current_branch).take
          (i - g.nodes.length)).any
          (fun p => (p.project_id == project_id && p.branch == current_branch &&
            p.pull_request_id == none) &&
            p.class_name == ((cloneCopies g d project_id main_branch
              current_branch)[i - g.nodes.length]).class_name &&
            p.method_name == ((cloneCopies g d project_id main_branch
              current_branch)[i - g.nodes.length]).method_name) = false := by
        rw [List.any_eq_false]
        intro p hp
        rcases List.mem_iff_getElem.1 hp with ⟨k, hk, hpk⟩
        have hk2 : k < i - g.nodes.length := by
          have := hk
          simp [List.length_take] at this
          omega
        have hkcc : k < (cloneCopies g d project_id main_branch current_branch).length := by
          omega
        have hpcc : p = (cloneCopies g d project_id main_branch current_branch)[k] := by
          rw [← hpk]
          exact List.getElem_take _
        have hkel : k < (g.nodes.filter (cloneEligible d project_id main_branch)).length := by
          have : (cloneCopies g d project_id main_branch current_branch).length =
              (g.nodes.filter (cloneEligible d project_id main_branch)).length := by
            simp [cloneCopies]
          omega
        have hjel : i - g.nodes.length <
            (g.nodes.filter (cloneEligible d project_id main_branch)).length := by
          have : (cloneCopies g d project_id main_branch current_branch).length =
              (g.nodes.filter (cloneEligible d project_id main_branch)).length := by
            simp [cloneCopies]
          omega
        have hpck : (cloneCopies g d project_id main_branch current_branch)[k] =
            { (g.nodes.filter (cloneEligible d project_id main_branch))[k] with
              nid := g.nextId + k, branch := current_branch } := by
          simp [cloneCopies]
        have hpcj : (cloneCopies g d project_id main_branch
            current_branch)[i - g.nodes.length] =
            { (g.nodes.filter (cloneEligible d project_id main_branch))[i -
              g.nodes.length] with
              nid := g.nextId + (i - g.nodes.length), branch := current_branch } := by
          simp [cloneCopies]
        have hR := List.pairwise_iff_getElem.1 hkeys k (i - g.nodes.length) hkel hjel hk2
        rw [hpcc, hpck, hpcj]
        by_cases hcn : ((g.nodes.filter (cloneEligible d project_id main_branch))[k]).class_name =
            ((g.nodes.filter (cloneEligible d project_id main_branch))[i -
              g.nodes.length]).class_name
        · by_cases hmn : ((g.nodes.filter (cloneEligible d project_id
              main_branch))[k]).method_name =
              ((g.nodes.filter (cloneEligible d project_id main_branch))[i -
                g.nodes.length]).method_name
          · exact absurd ⟨hcn, hmn⟩ hR
          · simp [hmn]
        · simp [hcn]
      rw [h1, h2]
      rfl
    rw [hanyfalse]
    exact Bool.and_false _

end SourceAtlas

namespace SourceAtlas

/-- The three relationship-copy passes only append edges, keeping the
internal pass's edges in the final state. -/
theorem relPhases_shape (G : Graph) (project_id main_branch current_branch : String)
    (rbs : Nat) :
    ∃ add, copyReverseCrossRelationships (copyCrossRelationships
      (copyInternalRelationships G project_id main_branch current_branch rbs)
      project_id main_branch current_branch rbs) project_id main_branch current_branch rbs =
      { G with edges := (copyInternalRelationships G project_id main_branch current_branch
        rbs).edges ++ add } := by
  obtain ⟨a3, h3⟩ := copyInternalRelationships_shape G project_id main_branch
    current_branch rbs
  obtain ⟨a4, h4⟩ := copyCrossRelationships_shape
    (copyInternalRelationships G project_id main_branch current_branch rbs)
    project_id main_branch current_branch rbs
  obtain ⟨a5, h5⟩ := copyReverseCrossRelationships_shape
    (copyCrossRelationships (copyInternalRelationships G project_id main_branch
      current_branch rbs) project_id main_branch current_branch rbs)
    project_id main_branch current_branch rbs
  refine ⟨a4 ++ a5, ?_⟩
  rw [h5, h4, h3]
  simp [List.append_assoc]

end SourceAtlas

namespace SourceAtlas

/-- C7: clone completeness and mapping cleanup.  Cloning `main_branch` into a
fresh `current_branch` partition (no stale mappings, no nodes already in the
target partition, pairwise-distinct identity keys among the eligible source
nodes, node page covering the eligible nodes and relationship page covering
the internal rows): the store afterwards holds exactly the old nodes plus one
copy of every eligible (non-PR, non-excluded) source-branch node; every
source-branch edge both of whose endpoints were copied is recreated between
the two copies; and no `NodeMapping` row survives. -/
theorem C7_clone_completeness (g : Graph) (project_id main_branch current_branch : String)
    (changed : List CodeChunk) (bs rbs : Nat)
    (hne : main_branch ≠ current_branch)
    (hmap : g.mappings = [])
    (hfresh : ∀ n ∈ g.nodes, ¬(n.project_id = project_id ∧ n.branch = current_branch))
    (hkeys : (g.nodes.filter (cloneEligible (buildChangedNodeHashes changed) project_id
      main_branch)).Pairwise (fun a b => ¬(a.class_name = b.class_name ∧
      a.method_name = b.method_name)))
    (hbs : (g.nodes.filter (cloneEligible (buildChangedNodeHashes changed) project_id
      main_branch)).length ≤ bs)
    (hrbs : (internalRelMappedRows
        (copyNodesInBatches (cleanupExistingMappings g project_id current_branch)
          (buildChangedNodeHashes changed) project_id main_branch current_branch bs).1
        project_id main_branch current_branch).length ≤ rbs) :
    (copy_unchanged_nodes_from_main g project_id main_branch current_branch changed bs
        rbs).1.nodes =
      g.nodes ++ cloneCopies g (buildChangedNodeHashes changed) project_id main_branch
        current_branch ∧
    (copy_unchanged_nodes_from_main g project_id main_branch current_branch changed bs
        rbs).1.mappings = [] ∧
    (∀ r ∈ mainEdgeRows g project_id main_branch,
      cloneEligible (buildChangedNodeHashes changed) project_id main_branch r.1 = true →
      cloneEligible (buildChangedNodeHashes changed) project_id main_branch r.2.1 = true →
      ∃ cs ∈ (copy_unchanged_nodes_from_main g project_id main_branch current_branch changed
          bs rbs).1.nodes,
        ∃ ct ∈ (copy_unchanged_nodes_from_main g project_id main_branch current_branch
          changed bs rbs).1.nodes,
        cs.branch = current_branch ∧ ct.branch = current_branch ∧
        cs.class_name = r.1.class_name ∧ cs.method_name = r.1.method_name ∧
        ct.class_name = r.2.1.class_name ∧ ct.method_name = r.2.1.method_name ∧
        DbEdge.mk cs.nid ct.nid r.2.2.typ ∈ (copy_unchanged_nodes_from_main g project_id
          main_branch current_branch changed bs rbs).1.edges) := by
  have hclean : cleanupExistingMappings g project_id current_branch = g :=
    cleanupExistingMappings_of_empty g project_id current_branch hmap
  have hgca : (copyNodesInBatches (cleanupExistingMappings g project_id current_branch)
      (buildChangedNodeHashes changed) project_id main_branch current_branch bs).1 =
      { g with
        nodes := g.nodes ++ cloneCopies g (buildChangedNodeHashes changed) project_id
          main_branch current_branch
        mappings := g.mappings ++ cloneMaps g (buildChangedNodeHashes changed) project_id
          main_branch current_branch
        nextId := g.nextId + (g.nodes.filter (cloneEligible (buildChangedNodeHashes changed)
          project_id main_branch)).length } := by
    rw [hclean]
    exact copyNodesInBatches_single g (buildChangedNodeHashes changed) project_id
      main_branch current_branch bs hbs
  rw [hgca] at hrbs
  have hpipe : (copy_unchanged_nodes_from_main g project_id main_branch current_branch
      changed bs rbs).1 =
      cleanupMappingNodes (removeDuplicateNodes (copyReverseCrossRelationships
        (copyCrossRelationships (copyInternalRelationships
          (copyNodesInBatches (cleanupExistingMappings g project_id current_branch)
            (buildChangedNodeHashes changed) project_id main_branch current_branch bs).1
          project_id main_branch current_branch rbs)
          project_id main_branch current_branch rbs)
          project_id main_branch current_branch rbs)
        project_id current_branch) project_id current_branch := rfl
  rw [hgca] at hpipe
  obtain ⟨add, hcomp⟩ := relPhases_shape
    { g with
      nodes := g.nodes ++ cloneCopies g (buildChangedNodeHashes changed) project_id
        main_branch current_branch
      mappings := g.mappings ++ cloneMaps g (buildChangedNodeHashes changed) project_id
        main_branch current_branch
      nextId := g.nextId + (g.nodes.filter (cloneEligible (buildChangedNodeHashes changed)
        project_id main_branch)).length }
    project_id main_branch current_branch rbs
  rw [hcomp] at hpipe
  have hdedup : removeDuplicateNodes
      { { g with
          nodes := g.nodes ++ cloneCopies g (buildChangedNodeHashes changed) project_id
            main_branch current_branch
          mappings := g.mappings ++ cloneMaps g (buildChangedNodeHashes changed) project_id
            main_branch current_branch
          nextId := g.nextId + (g.nodes.filter (cloneEligible
            (buildChangedNodeHashes changed) project_id main_branch)).length } with
        edges := (copyInternalRelationships
          { g with
            nodes := g.nodes ++ cloneCopies g (buildChangedNodeHashes changed) project_id
              main_branch current_branch
            mappings := g.mappings ++ cloneMaps g (buildChangedNodeHashes changed)
              project_id main_branch current_branch
            nextId := g.nextId + (g.nodes.filter (cloneEligible
              (buildChangedNodeHashes changed) project_id main_branch)).length }
          project_id main_branch current_branch rbs).edges ++ add }
      project_id current_branch =
      { { g with
          nodes := g.nodes ++ cloneCopies g (buildChangedNodeHashes changed) project_id
            main_branch current_branch
          mappings := g.mappings ++ cloneMaps g (buildChangedNodeHashes changed) project_id
            main_branch current_branch
          nextId := g.nextId + (g.nodes.filter (cloneEligible
            (buildChangedNodeHashes changed) project_id main_branch)).length } with
        edges := (copyInternalRelationships
          { g with
            nodes := g.nodes ++ cloneCopies g (buildChangedNodeHashes changed) project_id
              main_branch current_branch
            mappings := g.mappings ++ cloneMaps g (buildChangedNodeHashes changed)
              project_id main_branch current_branch
            nextId := g.nextId + (g.nodes.filter (cloneEligible
              (buildChangedNodeHashes changed) project_id main_branch)).length }
          project_id main_branch current_branch rbs).edges ++ add } :=
    removeDuplicateNodes_id _ project_id current_branch
      (clone_dedup_hyp g (buildChangedNodeHashes changed) project_id main_branch
        current_branch hfresh hkeys)
  rw [hdedup] at hpipe
  refine ⟨by rw [hpipe]; rfl, ?_, ?_⟩
  · rw [hpipe]
    show (g.mappings ++ cloneMaps g (buildChangedNodeHashes changed) project_id main_branch
      current_branch).filter (fun m =>
        !(m.project_id == project_id && m.branch == current_branch)) = []
    rw [hmap, List.nil_append]
    exact List.filter_eq_nil_iff.mpr (fun m hm => by
      rcases List.mem_map.1 hm with ⟨sn, -, rfl⟩
      simp)
  · intro r hr heligS heligT
    rcases List.mem_flatMap.1 hr with ⟨e0, he0, hx⟩
    rcases List.mem_flatMap.1 hx with ⟨s, hsf, hy⟩
    rcases List.mem_map.1 hy with ⟨t, htf, heq⟩
    subst heq
    have hs_in : s ∈ g.nodes := List.mem_of_mem_filter hsf
    have ht_in : t ∈ g.nodes := List.mem_of_mem_filter htf
    have hs_el : s ∈ g.nodes.filter (cloneEligible (buildChangedNodeHashes changed)
        project_id main_branch) := List.mem_filter.2 ⟨hs_in, heligS⟩
    have ht_el : t ∈ g.nodes.filter (cloneEligible (buildChangedNodeHashes changed)
        project_id main_branch) := List.mem_filter.2 ⟨ht_in, heligT⟩
    obtain ⟨i, hiel, his⟩ := List.mem_iff_getElem.1 hs_el
    obtain ⟨j, hjel, hjt⟩ := List.mem_iff_getElem.1 ht_el
    have hcs_mem : ({ s with nid := g.nextId + i, branch := current_branch } : DbNode) ∈
        cloneCopies g (buildChangedNodeHashes changed) project_id main_branch
          current_branch := by
      apply List.mem_map.2
      refine ⟨(i, s), ?_, rfl⟩
      exact List.mk_mem_enum_iff_getElem?.mpr (by rw [List.getElem?_eq_getElem hiel, his])
    have hct_mem : ({ t with nid := g.nextId + j, branch := current_branch } : DbNode) ∈
        cloneCopies g (buildChangedNodeHashes changed) project_id main_branch
          current_branch := by
      apply List.mem_map.2
      refine ⟨(j, t), ?_, rfl⟩
      exact List.mk_mem_enum_iff_getElem?.mpr (by rw [List.getElem?_eq_getElem hjel, hjt])
    have hsm_mem : Mapping.mk s.nid (g.nextId + i) project_id current_branch ∈
        cloneMaps g (buildChangedNodeHashes changed) project_id main_branch
          current_branch := by
      apply List.mem_map.2
      refine ⟨(i, s), ?_, rfl⟩
      exact List.mk_mem_enum_iff_getElem?.mpr (by rw [List.getElem?_eq_getElem hiel, his])
    have htm_mem : Mapping.mk t.nid (g.nextId + j) project_id current_branch ∈
        cloneMaps g (buildChangedNodeHashes changed) project_id main_branch
          current_branch := by
      apply List.mem_map.2
      refine ⟨(j, t), ?_, rfl⟩
      exact List.mk_mem_enum_iff_getElem?.mpr (by rw [List.getElem?_eq_getElem hjel, hjt])
    have hrows : mainEdgeRows
        { g with
          nodes := g.nodes ++ cloneCopies g (buildChangedNodeHashes changed) project_id
            main_branch current_branch
          mappings := g.mappings ++ cloneMaps g (buildChangedNodeHashes changed) project_id
            main_branch current_branch
          nextId := g.nextId + (g.nodes.filter (cloneEligible
            (buildChangedNodeHashes changed) project_id main_branch)).length }
        project_id main_branch = mainEdgeRows g project_id main_branch :=
      mainEdgeRows_copy g project_id main_branch current_branch _ _ _ hne
        (fun c hc => by
          rcases List.mem_map.1 hc with ⟨sn, -, rfl⟩
          rfl)
    have hrow : (g.nextId + i, g.nextId + j, e0.typ) ∈
        internalRelMappedRows
          { g with
            nodes := g.nodes ++ cloneCopies g (buildChangedNodeHashes changed) project_id
              main_branch current_branch
            mappings := g.mappings ++ cloneMaps g (buildChangedNodeHashes changed)
              project_id main_branch current_branch
            nextId := g.nextId + (g.nodes.filter (cloneEligible
              (buildChangedNodeHashes changed) project_id main_branch)).length }
          project_id main_branch current_branch := by
      unfold internalRelMappedRows
      rw [hrows]
      apply List.mem_flatMap.2
      refine ⟨(s, t, e0), hr, ?_⟩
      apply List.mem_flatMap.2
      refine ⟨Mapping.mk s.nid (g.nextId + i) project_id current_branch, ?_, ?_⟩
      · apply List.mem_filter.2
        refine ⟨List.mem_append.2 (Or.inr hsm_mem), by simp⟩
      · apply List.mem_map.2
        refine ⟨Mapping.mk t.nid (g.nextId + j) project_id current_branch, ?_, rfl⟩
        apply List.mem_filter.2
        refine ⟨List.mem_append.2 (Or.inr htm_mem), by simp⟩
    have hedge : DbEdge.mk (g.nextId + i) (g.nextId + j) e0.typ ∈
        (copyInternalRelationships
          { g with
            nodes := g.nodes ++ cloneCopies g (buildChangedNodeHashes changed) project_id
              main_branch current_branch
            mappings := g.mappings ++ cloneMaps g (buildChangedNodeHashes changed)
              project_id main_branch current_branch
            nextId := g.nextId + (g.nodes.filter (cloneEligible
              (buildChangedNodeHashes changed) project_id main_branch)).length }
          project_id main_branch current_branch rbs).edges := by
      apply copyInternalRelationships_mem _ project_id main_branch current_branch rbs _ hrbs
      apply List.mem_flatMap.2
      refine ⟨(g.nextId + i, g.nextId + j, e0.typ), hrow, ?_⟩
      apply List.mem_flatMap.2
      refine ⟨{ s with nid := g.nextId + i, branch := current_branch }, ?_, ?_⟩
      · apply List.mem_filter.2
        refine ⟨List.mem_append.2 (Or.inr hcs_mem), by simp⟩
      · apply List.mem_map.2
        refine ⟨{ t with nid := g.nextId + j, branch := current_branch }, ?_, rfl⟩
        apply List.mem_filter.2
        refine ⟨List.mem_append.2 (Or.inr hct_mem), by simp⟩
    refine ⟨{ s with nid := g.nextId + i, branch := current_branch }, ?_, ?_⟩
    · rw [hpipe]
      exact List.mem_append.2 (Or.inr hcs_mem)
    refine ⟨{ t with nid := g.nextId + j, branch := current_branch }, ?_, ?_⟩
    · rw [hpipe]
      exact List.mem_append.2 (Or.inr hct_mem)
    refine ⟨rfl, rfl, rfl, rfl, rfl, rfl, ?_⟩
    rw [hpipe]
    exact List.mem_append.2 (Or.inl hedge)

end SourceAtlas

namespace SourceAtlas

/-- Fixture: a `main`-branch store with classes `A`, `B`, `C`, an edge
`A -CALL-> B`, and no `dev`-partition content. -/
def gClone : Graph :=
  { nodes := [mkNode 0 "ClassNode" "A" none "h1" "main",
              mkNode 1 "ClassNode" "B" none "h2" "main",
              mkNode 2 "ClassNode" "C" none "hC1" "main"]
    edges := [DbEdge.mk 0 1 "CALL"]
    mappings := []
    nextId := 3 }

/-- Witness for C7 at a concrete input: cloning `main` into `dev` while `C`
is changed (hash `hC2` vs stored `hC1`) appends exactly the copies of the
eligible nodes `A` and `B`. -/
theorem C7_witness :
    (copy_unchanged_nodes_from_main gClone "1" "main" "dev" [mkChunk "C" "hC2" []] 100
        100).1.nodes =
      gClone.nodes ++ cloneCopies gClone (buildChangedNodeHashes [mkChunk "C" "hC2" []])
        "1" "main" "dev" :=
  (C7_clone_completeness gClone "1" "main" "dev" [mkChunk "C" "hC2" []] 100 100
    (by decide) rfl (by decide) (by decide) (by decide) (by decide)).1

end SourceAtlas

namespace SourceAtlas

/-- Fixture for the C1 counterexample: branch `dev` holds `A.a` and `B.b`
(hash `h1`) with the boundary edge `A.a --CALL--> B.b`; the configured main
branch holds `B.b` at hash `h2`. -/
def c1LossGraph : Graph :=
  { nodes := [mkNode 0 "MethodNode" "A" (some "a") "hA" "dev",
              mkNode 1 "MethodNode" "B" (some "b") "h1" "dev",
              mkNode 2 "MethodNode" "B" (some "b") "h2" "main"]
    edges := [DbEdge.mk 0 1 "CALL"], mappings := [], nextId := 3 }

/-- C1 counterexample: `A.a --CALL--> B.b` exists, `A` is unchanged (not in
the batch) and `B.b`'s hash changes from `h1` to `h2 ≠ h1` — yet when a main
branch is configured and `B`'s new hash equals main's copy, the node phase
deletes dev's `B.b`, the hash-gated create then skips it (base lookup finds
nothing, main's hash matches), restore finds no target, and the edge is lost
outright: `import_code_chunks` ends with no edges at all. -/
theorem C1_counterexample :
    c1LossGraph.edges = [DbEdge.mk 0 1 "CALL"] ∧
    (doImportCodeChunks c1LossGraph [mkChunk "B" "hBc" [mkMethod "b" "h2" []]] 100
      (some "main") none none (some "v2") none none).edges = [] ∧
    ("h1" : String) ≠ "h2" := by
  refine ⟨rfl, by decide, by decide⟩

/-- The C1 scenario store, with all identifiers and hashes symbolic: branch
`dev` holds class `A` with method `A.a`, class `B` with method `B.b` (hash
`hOld`), and the boundary edge `A.a --CALL--> B.b`. -/
def c1Store (clsA ma hAcls hAm clsB mb hBc hOld : String) : Graph :=
  { nodes := [mkNode 0 "ClassNode" clsA none hAcls "dev",
              mkNode 1 "MethodNode" clsA (some ma) hAm "dev",
              mkNode 2 "ClassNode" clsB none hBc "dev",
              mkNode 3 "MethodNode" clsB (some mb) hOld "dev"]
    edges := [DbEdge.mk 1 3 "CALL"], mappings := [], nextId := 4 }

end SourceAtlas

namespace SourceAtlas

/-- C1 amended: relationship preservation holds in the configuration where
the replacement node is actually created — here the no-main-branch mode, in
which node creation is unconditional.  Universally over all identifiers,
hashes and the run's version: starting from the scenario store
(`A.a --CALL--> B.b` in `dev`, `A`'s fact unchanged and absent from the
batch, `B`'s method hash changed `hOld ≠ hNew`), after `import_code_chunks`
on the batch `[B]` exactly one edge exists in the store — a CALL edge whose
source is the original `A.a` node and whose target is the replacement `B.b`
node carrying the new hash — and every node at `B.b`'s identity carries the
new hash, none the old one. -/
theorem C1_amended_preservation (clsA ma hAcls hAm clsB mb hBc hOld hBc2 hNew : String)
    (version : Option String)
    (hAB : clsA ≠ clsB)
    (hk1 : clsA ++ "." ++ ma ≠ clsB)
    (hk2 : clsA ++ "." ++ ma ≠ clsB ++ "." ++ mb)
    (hk3 : clsB ++ "." ++ mb ≠ clsB)
    (hchanged : hOld ≠ hNew) :
    (doImportCodeChunks (c1Store clsA ma hAcls hAm clsB mb hBc hOld)
        [mkChunk clsB hBc2 [mkMethod mb hNew []]] 100 none none none version none
        none).edges = [DbEdge.mk 1 5 "CALL"] ∧
    (∀ s ∈ (doImportCodeChunks (c1Store clsA ma hAcls hAm clsB mb hBc hOld)
        [mkChunk clsB hBc2 [mkMethod mb hNew []]] 100 none none none version none
        none).nodes, s.nid = 1 →
      s.class_name = clsA ∧ s.method_name = some ma ∧ s.ast_hash = hAm) ∧
    (∃ t ∈ (doImportCodeChunks (c1Store clsA ma hAcls hAm clsB mb hBc hOld)
        [mkChunk clsB hBc2 [mkMethod mb hNew []]] 100 none none none version none
        none).nodes, t.nid = 5 ∧ t.class_name = clsB ∧ t.method_name = some mb ∧
      t.ast_hash = hNew ∧ t.branch = "dev") ∧
    (∀ t ∈ (doImportCodeChunks (c1Store clsA ma hAcls hAm clsB mb hBc hOld)
        [mkChunk clsB hBc2 [mkMethod mb hNew []]] 100 none none none version none
        none).nodes, t.class_name = clsB → t.method_name = some mb →
      t.ast_hash = hNew ∧ t.ast_hash ≠ hOld) := by
  have hsaved : save_changed_nodes_relationships (c1Store clsA ma hAcls hAm clsB mb hBc hOld)
      "1" "dev" [mkChunk clsB hBc2 [mkMethod mb hNew []]] =
      [{ unchanged_class := clsA, unchanged_method := some ma, rel_type := "CALL",
         changed_class := clsB, changed_method := some mb }] := by
    simp [save_changed_nodes_relationships, changedNodeKeys, nodeKey, c1Store, mkNode,
      mkChunk, mkMethod, List.filterMap_cons, hk1, hk2, hk3]
  have hnode : doImportChangedChunkNodesOnly (c1Store clsA ma hAcls hAm clsB mb hBc hOld)
      [mkChunk clsB hBc2 [mkMethod mb hNew []]] none (some "dev") 100 none version none
      none =
      { nodes := [mkNode 0 "ClassNode" clsA none hAcls "dev",
                  mkNode 1 "MethodNode" clsA (some ma) hAm "dev",
                  nodeOfRec (classNodeRec none (some "dev") none none version
                    (mkChunk clsB hBc2 [mkMethod mb hNew []])) 4,
                  nodeOfRec (methodNodeRec none (some "dev") none none version
                    (mkChunk clsB hBc2 [mkMethod mb hNew []]) (mkMethod mb hNew [])) 5]
        edges := []
        mappings := []
        nextId := 6 } := by
    show applyOps (c1Store clsA ma hAcls hAm clsB mb hBc hOld)
      [CypherOp.deleteClassNodes [classDelRec (mkChunk clsB hBc2 [mkMethod mb hNew []])],
       CypherOp.deleteMethodNodes [methodDelRec (mkChunk clsB hBc2 [mkMethod mb hNew []])
         (mkMethod mb hNew [])],
       CypherOp.createNodesPlain [classNodeRec none (some "dev") none none version
           (mkChunk clsB hBc2 [mkMethod mb hNew []]),
         methodNodeRec none (some "dev") none none version
           (mkChunk clsB hBc2 [mkMethod mb hNew []]) (mkMethod mb hNew [])]] = _
    simp [applyOps, applyOp, detachDelete, appendCreated, classDelHits, methodDelHits,
      classDelRec, methodDelRec, patEq, c1Store, mkNode, mkChunk, mkMethod, hAB,
      List.range_succ, List.range_zero]
  have hrestore : restore_changed_nodes_relationships
      { nodes := [mkNode 0 "ClassNode" clsA none hAcls "dev",
                  mkNode 1 "MethodNode" clsA (some ma) hAm "dev",
                  nodeOfRec (classNodeRec none (some "dev") none none version
                    (mkChunk clsB hBc2 [mkMethod mb hNew []])) 4,
                  nodeOfRec (methodNodeRec none (some "dev") none none version
                    (mkChunk clsB hBc2 [mkMethod mb hNew []]) (mkMethod mb hNew [])) 5]
        edges := []
        mappings := []
        nextId := 6 } "1" "dev"
      [{ unchanged_class := clsA, unchanged_method := some ma, rel_type := "CALL",
         changed_class := clsB, changed_method := some mb }] =
      { nodes := [mkNode 0 "ClassNode" clsA none hAcls "dev",
                  mkNode 1 "MethodNode" clsA (some ma) hAm "dev",
                  nodeOfRec (classNodeRec none (some "dev") none none version
                    (mkChunk clsB hBc2 [mkMethod mb hNew []])) 4,
                  nodeOfRec (methodNodeRec none (some "dev") none none version
                    (mkChunk clsB hBc2 [mkMethod mb hNew []]) (mkMethod mb hNew [])) 5]
        edges := [DbEdge.mk 1 5 "CALL"]
        mappings := []
        nextId := 6 } := by
    simp [restore_changed_nodes_relationships, patEq, nodeOfRec, classNodeRec, methodNodeRec,
      prInclude, mkNode, mkChunk, mkMethod, hAB, Ne.symm hAB]
  have hfinal : doImportCodeChunks (c1Store clsA ma hAcls hAm clsB mb hBc hOld)
      [mkChunk clsB hBc2 [mkMethod mb hNew []]] 100 none none none version none none =
      { nodes := [mkNode 0 "ClassNode" clsA none hAcls "dev",
                  mkNode 1 "MethodNode" clsA (some ma) hAm "dev",
                  nodeOfRec (classNodeRec none (some "dev") none none version
                    (mkChunk clsB hBc2 [mkMethod mb hNew []])) 4,
                  nodeOfRec (methodNodeRec none (some "dev") none none version
                    (mkChunk clsB hBc2 [mkMethod mb hNew []]) (mkMethod mb hNew [])) 5]
        edges := [DbEdge.mk 1 5 "CALL"]
        mappings := []
        nextId := 6 } := by
    show remove_duplicate_relationships
      (doImportChangedChunkRelationships
        (if (save_changed_nodes_relationships (c1Store clsA ma hAcls hAm clsB mb hBc hOld)
            "1" "dev" [mkChunk clsB hBc2 [mkMethod mb hNew []]]).isEmpty then
          doImportChangedChunkNodesOnly (c1Store clsA ma hAcls hAm clsB mb hBc hOld)
            [mkChunk clsB hBc2 [mkMethod mb hNew []]] none (some "dev") 100 none version
            none none
        else
          restore_changed_nodes_relationships
            (doImportChangedChunkNodesOnly (c1Store clsA ma hAcls hAm clsB mb hBc hOld)
              [mkChunk clsB hBc2 [mkMethod mb hNew []]] none (some "dev") 100 none version
              none none)
            "1" "dev"
            (save_changed_nodes_relationships (c1Store clsA ma hAcls hAm clsB mb hBc hOld)
              "1" "dev" [mkChunk clsB hBc2 [mkMethod mb hNew []]]))
        [mkChunk clsB hBc2 [mkMethod mb hNew []]] none (some "dev") 100 version)
      "1" "dev" = _
    rw [hsaved, hnode]
    show remove_duplicate_relationships
      (doImportChangedChunkRelationships
        (restore_changed_nodes_relationships
          { nodes := [mkNode 0 "ClassNode" clsA none hAcls "dev",
                      mkNode 1 "MethodNode" clsA (some ma) hAm "dev",
                      nodeOfRec (classNodeRec none (some "dev") none none version
                        (mkChunk clsB hBc2 [mkMethod mb hNew []])) 4,
                      nodeOfRec (methodNodeRec none (some "dev") none none version
                        (mkChunk clsB hBc2 [mkMethod mb hNew []]) (mkMethod mb hNew [])) 5]
            edges := []
            mappings := []
            nextId := 6 } "1" "dev"
          [{ unchanged_class := clsA, unchanged_method := some ma, rel_type := "CALL",
             changed_class := clsB, changed_method := some mb }])
        [mkChunk clsB hBc2 [mkMethod mb hNew []]] none (some "dev") 100 version)
      "1" "dev" = _
    rw [hrestore]
    show remove_duplicate_relationships
      { nodes := [mkNode 0 "ClassNode" clsA none hAcls "dev",
                  mkNode 1 "MethodNode" clsA (some ma) hAm "dev",
                  nodeOfRec (classNodeRec none (some "dev") none none version
                    (mkChunk clsB hBc2 [mkMethod mb hNew []])) 4,
                  nodeOfRec (methodNodeRec none (some "dev") none none version
                    (mkChunk clsB hBc2 [mkMethod mb hNew []]) (mkMethod mb hNew [])) 5]
        edges := [DbEdge.mk 1 5 "CALL"]
        mappings := []
        nextId := 6 } "1" "dev" = _
    simp [remove_duplicate_relationships, List.enum_cons, Bool.and_false]
  refine ⟨by rw [hfinal], ?_, ?_, ?_⟩
  · intro s hs hnid
    rw [hfinal] at hs
    simp only [List.mem_cons, List.not_mem_nil, or_false] at hs
    rcases hs with rfl | rfl | rfl | rfl
    · exact absurd hnid (by simp [mkNode])
    · exact ⟨rfl, rfl, rfl⟩
    · exact absurd hnid (by simp [nodeOfRec])
    · exact absurd hnid (by simp [nodeOfRec])
  · rw [hfinal]
    refine ⟨nodeOfRec (methodNodeRec none (some "dev") none none version
      (mkChunk clsB hBc2 [mkMethod mb hNew []]) (mkMethod mb hNew [])) 5, ?_,
      rfl, rfl, rfl, rfl, rfl⟩
    simp
  · intro t ht hcls hm
    rw [hfinal] at ht
    simp only [List.mem_cons, List.not_mem_nil, or_false] at ht
    rcases ht with rfl | rfl | rfl | rfl
    · exact absurd hcls (by simpa [mkNode] using hAB)
    · exact absurd hcls (by simpa [mkNode] using hAB)
    · exact absurd hm (by simp [nodeOfRec, classNodeRec])
    · exact ⟨rfl, fun h => hchanged (by simpa [nodeOfRec, methodNodeRec, mkMethod] using
        h.symm)⟩

/-- Witness for C1's amended theorem at a concrete input. -/
theorem C1_witness :
    (doImportCodeChunks (c1Store "A" "a" "hAc" "hAm" "B" "b" "hBc" "h1")
        [mkChunk "B" "hBc2" [mkMethod "b" "h2" []]] 100 none none none (some "v2") none
        none).edges = [DbEdge.mk 1 5 "CALL"] :=
  (C1_amended_preservation "A" "a" "hAc" "hAm" "B" "b" "hBc" "h1" "hBc2" "h2" (some "v2")
    (by decide) (by decide) (by decide) (by decide) (by decide)).1

end SourceAtlas
